import Mathlib

set_option maxHeartbeats 1000000
set_option maxRecDepth 4096

/-!
Shallow embedding of the chippy8 CHIP-8 emulator core
(`src/machine.rs`, `src/instructions.rs`).

Modelling conventions:
* machine integers (`u8`, `u16`, `usize`) are `Nat` with explicit `% 256`
  / `% 65536` wherever the Rust code wraps (`Wrapping`, `u8` shifts);
* a Rust panic (out-of-bounds array indexing, `duration_since(..).unwrap()`
  on a time that went backwards) is `Option.none`;
* `f64` wall-clock seconds are modelled as exact rationals `ℚ`; the mocked
  `now()` of the test build is an explicit time argument to `tick` /
  `execute_one`;
* `rand::thread_rng().gen::<u8>()` is an explicit `rand` argument
  (used modulo 256);
* the log strings (`println!`) and the decode-time location string carried
  by `Unknown` are dropped: they have no effect on machine state.
-/

/-- `enum Instruction` from `instructions.rs` (the `String` location of
`Unknown` is dropped). -/
inductive Instruction where
  | Zero
  | ClearScreen
  | Jump (v : Nat)
  | SetRegToVal (reg val : Nat)
  | AddValToReg (reg val : Nat)
  | SetIndexRegister (val : Nat)
  | Display (rx ry n : Nat)
  | Subroutine (v : Nat)
  | Return
  | SkipIfEqualRegVal (reg val : Nat)
  | SkipIfNotEqualRegVal (reg val : Nat)
  | SkipIfEqualRegReg (reg1 reg2 : Nat)
  | SkipIfNotEqualRegReg (reg1 reg2 : Nat)
  | Set (rx ry : Nat)
  | Or (rx ry : Nat)
  | And (rx ry : Nat)
  | Xor (rx ry : Nat)
  | Add (rx ry : Nat)
  | SubtractXY (rx ry : Nat)
  | SubtractYX (rx ry : Nat)
  | ShiftLeft (rx ry : Nat)
  | ShiftRight (rx ry : Nat)
  | JumpWithOffset (v : Nat)
  | Random (rx v : Nat)
  | SkipIfKeyPressed (vx : Nat)
  | SkipIfKeyNotPressed (vx : Nat)
  | ReadDelayTimer (vx : Nat)
  | SetDelayTimer (vx : Nat)
  | SetSoundTimer (vx : Nat)
  | AddToIndex (vx : Nat)
  | GetKey (vx : Nat)
  | FontCharacter (vx : Nat)
  | ConvertToDecimal (vx : Nat)
  | RegistersToMemory (vx : Nat)
  | MemoryToRegisters (vx : Nat)
  | Unknown (bytes : Nat)
deriving DecidableEq

/- The `NibbleDecoder` trait impl for `u16` from `instructions.rs`. -/
namespace Word

def category (w : Nat) : Nat := (w &&& 0xF000) >>> 12

def vx (w : Nat) : Nat := (w &&& 0x0F00) >>> 8

def vy (w : Nat) : Nat := (w &&& 0x00F0) >>> 4

def n (w : Nat) : Nat := w &&& 0x000F

def nn (w : Nat) : Nat := w &&& 0x00FF

def nnn (w : Nat) : Nat := w &&& 0x0FFF

end Word

/-- `decode` from `instructions.rs`: the same if-else chain, in order. -/
def decode (bytes : Nat) : Instruction :=
  if bytes = 0 then .Zero
  else if bytes = 0x00E0 then .ClearScreen
  else if bytes = 0x00EE then .Return
  else if Word.category bytes = 1 then .Jump (Word.nnn bytes)
  else if Word.category bytes = 2 then .Subroutine (Word.nnn bytes)
  else if Word.category bytes = 3 then .SkipIfEqualRegVal (Word.vx bytes) (Word.nn bytes)
  else if Word.category bytes = 4 then .SkipIfNotEqualRegVal (Word.vx bytes) (Word.nn bytes)
  else if Word.category bytes = 5 then .SkipIfEqualRegReg (Word.vx bytes) (Word.vy bytes)
  else if Word.category bytes = 6 then .SetRegToVal (Word.vx bytes) (Word.nn bytes)
  else if Word.category bytes = 7 then .AddValToReg (Word.vx bytes) (Word.nn bytes)
  else if Word.category bytes = 8 ∧ Word.n bytes = 0 then .Set (Word.vx bytes) (Word.vy bytes)
  else if Word.category bytes = 8 ∧ Word.n bytes = 1 then .Or (Word.vx bytes) (Word.vy bytes)
  else if Word.category bytes = 8 ∧ Word.n bytes = 2 then .And (Word.vx bytes) (Word.vy bytes)
  else if Word.category bytes = 8 ∧ Word.n bytes = 3 then .Xor (Word.vx bytes) (Word.vy bytes)
  else if Word.category bytes = 8 ∧ Word.n bytes = 4 then .Add (Word.vx bytes) (Word.vy bytes)
  else if Word.category bytes = 8 ∧ Word.n bytes = 5 then .SubtractXY (Word.vx bytes) (Word.vy bytes)
  else if Word.category bytes = 8 ∧ Word.n bytes = 6 then .ShiftRight (Word.vx bytes) (Word.vy bytes)
  else if Word.category bytes = 8 ∧ Word.n bytes = 7 then .SubtractYX (Word.vx bytes) (Word.vy bytes)
  else if Word.category bytes = 8 ∧ Word.n bytes = 0xE then .ShiftLeft (Word.vx bytes) (Word.vy bytes)
  else if Word.category bytes = 9 then .SkipIfNotEqualRegReg (Word.vx bytes) (Word.vy bytes)
  else if Word.category bytes = 0xA then .SetIndexRegister (Word.nnn bytes)
  else if Word.category bytes = 0xB then .JumpWithOffset (Word.nnn bytes)
  else if Word.category bytes = 0xC then .Random (Word.vx bytes) (Word.nn bytes)
  else if Word.category bytes = 0xD then .Display (Word.vx bytes) (Word.vy bytes) (Word.n bytes)
  else if Word.category bytes = 0xE ∧ Word.nn bytes = 0x9E then .SkipIfKeyPressed (Word.vx bytes)
  else if Word.category bytes = 0xE ∧ Word.nn bytes = 0xA1 then .SkipIfKeyNotPressed (Word.vx bytes)
  else if Word.category bytes = 0xF ∧ Word.nn bytes = 0x07 then .ReadDelayTimer (Word.vx bytes)
  else if Word.category bytes = 0xF ∧ Word.nn bytes = 0x15 then .SetDelayTimer (Word.vx bytes)
  else if Word.category bytes = 0xF ∧ Word.nn bytes = 0x18 then .SetSoundTimer (Word.vx bytes)
  else if Word.category bytes = 0xF ∧ Word.nn bytes = 0x1E then .AddToIndex (Word.vx bytes)
  else if Word.category bytes = 0xF ∧ Word.nn bytes = 0x0A then .GetKey (Word.vx bytes)
  else if Word.category bytes = 0xF ∧ Word.nn bytes = 0x29 then .FontCharacter (Word.vx bytes)
  else if Word.category bytes = 0xF ∧ Word.nn bytes = 0x33 then .ConvertToDecimal (Word.vx bytes)
  else if Word.category bytes = 0xF ∧ Word.nn bytes = 0x55 then .RegistersToMemory (Word.vx bytes)
  else if Word.category bytes = 0xF ∧ Word.nn bytes = 0x65 then .MemoryToRegisters (Word.vx bytes)
  else .Unknown bytes

/-- `struct Timers` from `machine.rs`; `last_tick` is the last `now()`
sample in seconds, `last_tick_remainder` the fractional carry. -/
structure Timers where
  delay : Nat
  sound : Nat
  last_tick : ℚ
  last_tick_remainder : ℚ
deriving DecidableEq

/-- `f64::clamp(0.0, 255.0)` followed by `as u8` on an integer value. -/
def clampByte (x : ℤ) : Nat := (min 255 (max 0 x)).toNat

/-- `Timers::tick`.  `duration_since(..).unwrap()` panics (`none`) when the
clock went backwards; the timers are decremented by
`floor(remainder + elapsed * 60)` and clamped to `[0, 255]`. -/
def Timers.tick (t : ℚ) (tm : Timers) : Option Timers :=
  if t < tm.last_tick then none
  else
    let elapsed_s := t - tm.last_tick
    let decrement := tm.last_tick_remainder + elapsed_s * 60
    let rounded_decrement : ℤ := ⌊decrement⌋
    some { delay := clampByte ((tm.delay : ℤ) - rounded_decrement)
           sound := clampByte ((tm.sound : ℤ) - rounded_decrement)
           last_tick := t
           last_tick_remainder := decrement - (rounded_decrement : ℚ) }

/-- A sequence of `Timers::tick` calls at the given absolute wall-clock
times (left to right), as performed by successive `execute_one` cycles. -/
def Timers.tickSeq (tm : Timers) : List ℚ → Option Timers
  | [] => some tm
  | t :: ts =>
    match Timers.tick t tm with
    | none => none
    | some tm2 => Timers.tickSeq tm2 ts

/-- The non-panicking branch of `Timers::tick` as a pure function: the
timers that `tick t` produces when the clock did not go backwards. -/
def Timers.tickPure (t : ℚ) (tm : Timers) : Timers :=
  { delay := clampByte ((tm.delay : ℤ) - ⌊tm.last_tick_remainder + (t - tm.last_tick) * 60⌋)
    sound := clampByte ((tm.sound : ℤ) - ⌊tm.last_tick_remainder + (t - tm.last_tick) * 60⌋)
    last_tick := t
    last_tick_remainder := tm.last_tick_remainder + (t - tm.last_tick) * 60 -
      ((⌊tm.last_tick_remainder + (t - tm.last_tick) * 60⌋ : ℤ) : ℚ) }

/-- `struct Display`: `_pixels` is the 32×64 `Array2D<bool>` in row-major
`(row i = y, column j = x)` order, `_rgba` the packed byte buffer indexed by
`i * 64 * 4 + j * 4 + channel`. -/
structure Display where
  _pixels : Nat → Nat → Bool
  _rgba : Nat → Nat

/-- `Display::update_rgba_from_pixels`: the double loop writes exactly the
indices `i * 256 + j * 4 + c` for `i < 32`, `j < 64`, `c < 4`, i.e. all
`k < 32 * 64 * 4`, each channel getting 255 when the pixel at
`(row k / 256, column k % 256 / 4)` is on and 0 when it is off. -/
def Display.update_rgba_from_pixels (d : Display) : Display :=
  { d with _rgba := fun k =>
      if k < 32 * 64 * 4 then (if d._pixels (k / 256) (k % 256 / 4) then 255 else 0)
      else d._rgba k }

/-- `Display::pixel(x, y) = _pixels[(y, x)]`. -/
def Display.pixel (d : Display) (x y : Nat) : Bool := d._pixels y x

/-- `Display::set_pixel`: write `_pixels[(y, x)]` then recompute the whole
rgba buffer.  All call sites in `machine.rs` establish `x < 64`, `y < 32`
(the `Array2D` indexing would panic otherwise). -/
def Display.set_pixel (d : Display) (x y : Nat) (v : Bool) : Display :=
  Display.update_rgba_from_pixels
    { d with _pixels := fun i j => if i = y ∧ j = x then v else d._pixels i j }

/-- `Display::clear`: the loop sets every pixel of the 32×64 grid to false,
then recomputes the rgba buffer. -/
def Display.clear (d : Display) : Display :=
  Display.update_rgba_from_pixels
    { d with _pixels := fun i j => if i < 32 ∧ j < 64 then false else d._pixels i j }

/-- `Display::default`: all pixels off, rgba zeroed then recomputed. -/
def Display.default : Display :=
  Display.update_rgba_from_pixels { _pixels := fun _ _ => false, _rgba := fun _ => 0 }

/-- `struct Machine` from `machine.rs`: `ram` has 4096 meaningful entries,
`stack` 100, `registers` 16, `key_pressed` 16. -/
structure Machine where
  display : Display
  ram : Nat → Nat
  stack : Nat → Nat
  stack_index : Nat
  program_counter : Nat
  index_register : Nat
  registers : Nat → Nat
  key_pressed : Nat → Bool
  timers : Timers

/-- `Machine::set_flag_register`. -/
def Machine.set_flag_register (m : Machine) (v : Nat) : Machine :=
  { m with registers := fun i => if i = 15 then v else m.registers i }

/-- `Machine::flag_register`. -/
def Machine.flag_register (m : Machine) : Nat := m.registers 15

/-- A single register write `self.registers[r] = v`. -/
def Machine.setReg (m : Machine) (r v : Nat) : Machine :=
  { m with registers := fun i => if i = r then v else m.registers i }

/-- `Machine::push_stack`: the (off-by-one) overflow guard fires only when
`stack_index > 100`; the following write `stack[stack_index] = v` panics
(`none`) when `stack_index ≥ 100`. -/
def Machine.push_stack (m : Machine) (v : Nat) : Option Machine :=
  let m1 := if m.stack_index > 100 then { m with stack_index := 100 - 1 } else m
  if m1.stack_index < 100 then
    some { m1 with
           stack := fun i => if i = m1.stack_index then v else m1.stack i
           stack_index := m1.stack_index + 1 }
  else none

/-- `Machine::pop_stack`: clamp an empty stack's index to 1, decrement, read
`stack[stack_index]` (a panic, `none`, when the index is out of the 100
entries). -/
def Machine.pop_stack (m : Machine) : Option (Nat × Machine) :=
  let m1 := if m.stack_index < 1 then { m with stack_index := 1 } else m
  if m1.stack_index - 1 < 100 then
    some (m1.stack (m1.stack_index - 1), { m1 with stack_index := m1.stack_index - 1 })
  else none

/-- Checked ram read (`self.ram[a]` panics outside the 4096 bytes). -/
def Machine.readRam (m : Machine) (a : Nat) : Option Nat :=
  if a < 4096 then some (m.ram a) else none

/-- Checked ram write. -/
def Machine.writeRam (m : Machine) (a v : Nat) : Option Machine :=
  if a < 4096 then some { m with ram := fun x => if x = a then v else m.ram x } else none

/-- Checked key read (`self.key_pressed[i]` panics when `i ≥ 16`). -/
def Machine.readKey (m : Machine) (i : Nat) : Option Bool :=
  if i < 16 then some (m.key_pressed i) else none

/-- `self.key_pressed.iter().enumerate().find(|(_k, p)| **p)`: the first
(lowest) pressed key index among 0..15. -/
def Machine.findKey (m : Machine) : Option Nat :=
  (List.range 16).find? fun i => m.key_pressed i

/-- The sprite bit for column offset `j`: `(sprite_data >> (7 - j)) & 1`. -/
def spriteBit (s j : Nat) : Nat := (s >>> (7 - j)) &&& 1

/-- One sprite-bit draw step of the `Display` instruction: XOR the pixel,
setting the flag register to 1 on erasure. -/
def Machine.drawPixel (m : Machine) (px py : Nat) : Machine :=
  if m.display.pixel px py then
    { m with display := m.display.set_pixel px py false
             registers := fun i => if i = 15 then 1 else m.registers i }
  else { m with display := m.display.set_pixel px py true }

/-- Inner loop of the `Display` instruction (`for j in 0..8`, breaking when
`x + j ≥ 64`, skipping sprite bits equal to 0), starting at column offset
`j`. -/
def Machine.drawRowAux (x row s : Nat) (j : Nat) (m : Machine) : Machine :=
  if 8 ≤ j then m
  else if 64 ≤ x + j then m
  else
    Machine.drawRowAux x row s (j + 1)
      (if spriteBit s j = 0 then m else m.drawPixel (x + j) row)
termination_by 8 - j

/-- Outer loop of the `Display` instruction (`for i in 0..n`, breaking when
`y + i ≥ 32`, reading the sprite byte `ram[I + i]`), starting at row `i`. -/
def Machine.drawRows (x y nrows I : Nat) (i : Nat) (m : Machine) : Option Machine :=
  if nrows ≤ i then some m
  else if 32 ≤ y + i then some m
  else
    match m.readRam (I + i) with
    | none => none
    | some s => Machine.drawRows x y nrows I (i + 1) (Machine.drawRowAux x (y + i) s 0 m)
termination_by nrows - i

/-- `Machine::_execute_subtract`: flag 1 when `v1 ≥ v2`, else 0; result is
the wrapping difference (arguments are `u8`, i.e. < 256). -/
def Machine._execute_subtract (m : Machine) (rx v1 v2 : Nat) : Machine :=
  (if v1 ≥ v2 then m.set_flag_register 1 else m.set_flag_register 0).setReg rx
    ((v1 + 256 - v2) % 256)

/-- `RegistersToMemory` loop: `for i in 0..vx+1 { ram[I + i] = registers[i] }`. -/
def Machine.storeRegs (vx : Nat) (i : Nat) (m : Machine) : Option Machine :=
  if i < vx + 1 then
    match m.writeRam (m.index_register + i) (m.registers i) with
    | none => none
    | some m1 => Machine.storeRegs vx (i + 1) m1
  else some m
termination_by vx + 1 - i

/-- `MemoryToRegisters` loop: `for i in 0..vx+1 { registers[i] = ram[I + i] }`. -/
def Machine.loadRegs (vx : Nat) (i : Nat) (m : Machine) : Option Machine :=
  if i < vx + 1 then
    match m.readRam (m.index_register + i) with
    | none => none
    | some v => Machine.loadRegs vx (i + 1) (m.setReg i v)
  else some m
termination_by vx + 1 - i

/-- `Machine::get_character_address`: `0x50 + char * 4`. -/
def Machine.get_character_address (char : Nat) : Nat := 0x50 + char * 4

/-- The per-instruction body of the big `match` in `Machine::execute_one`
(run after `program_counter += 2`). -/
def Machine.execInstr (m : Machine) (instr : Instruction) (rand : Nat) : Option Machine :=
  match instr with
  | .Zero => some m
  | .ClearScreen => some { m with display := m.display.clear }
  | .Jump v => some { m with program_counter := v }
  | .SetRegToVal reg val => some (m.setReg reg val)
  | .AddValToReg reg val => some (m.setReg reg ((m.registers reg + val) % 256))
  | .SetIndexRegister val => some { m with index_register := val }
  | .Display rx ry nr =>
      Machine.drawRows (m.registers rx % 64) (m.registers ry % 32) nr m.index_register 0
        (m.set_flag_register 0)
  | .Subroutine v =>
      match m.push_stack m.program_counter with
      | none => none
      | some m1 => some { m1 with program_counter := v }
  | .Return =>
      match m.pop_stack with
      | none => none
      | some (v, m1) => some { m1 with program_counter := v }
  | .Unknown _ => some m
  | .SkipIfEqualRegVal reg val =>
      some (if m.registers reg = val
        then { m with program_counter := m.program_counter + 2 } else m)
  | .SkipIfNotEqualRegVal reg val =>
      some (if m.registers reg ≠ val
        then { m with program_counter := m.program_counter + 2 } else m)
  | .SkipIfEqualRegReg r1 r2 =>
      some (if m.registers r1 = m.registers r2
        then { m with program_counter := m.program_counter + 2 } else m)
  | .SkipIfNotEqualRegReg r1 r2 =>
      some (if m.registers r1 ≠ m.registers r2
        then { m with program_counter := m.program_counter + 2 } else m)
  | .Set rx ry => some (m.setReg rx (m.registers ry))
  | .Or rx ry => some (m.setReg rx (m.registers rx ||| m.registers ry))
  | .And rx ry => some (m.setReg rx (m.registers rx &&& m.registers ry))
  | .Xor rx ry => some (m.setReg rx (m.registers rx ^^^ m.registers ry))
  | .Add rx ry =>
      let v1 := m.registers rx
      let v2 := m.registers ry
      some ((if v1 + v2 > 255 then m.set_flag_register 1 else m.set_flag_register 0).setReg rx
        ((v1 + v2) % 256))
  | .SubtractXY rx ry => some (m._execute_subtract rx (m.registers rx) (m.registers ry))
  | .SubtractYX rx ry => some (m._execute_subtract rx (m.registers ry) (m.registers rx))
  | .ShiftLeft rx _ =>
      let v := m.registers rx
      some ((m.set_flag_register ((v >>> 7) &&& 1)).setReg rx ((v * 2) % 256))
  | .ShiftRight rx _ =>
      let v := m.registers rx
      some ((m.set_flag_register (v &&& 1)).setReg rx (v / 2))
  | .JumpWithOffset offset => some { m with program_counter := offset + m.registers 0 }
  | .Random rx v => some (m.setReg rx ((rand % 256) &&& v))
  | .SkipIfKeyPressed vx =>
      match m.readKey (m.registers vx) with
      | none => none
      | some b => some (if b then { m with program_counter := m.program_counter + 2 } else m)
  | .SkipIfKeyNotPressed vx =>
      match m.readKey (m.registers vx) with
      | none => none
      | some b => some (if !b then { m with program_counter := m.program_counter + 2 } else m)
  | .ReadDelayTimer vx => some (m.setReg vx m.timers.delay)
  | .SetDelayTimer vx => some { m with timers := { m.timers with delay := m.registers vx } }
  | .SetSoundTimer vx => some { m with timers := { m.timers with sound := m.registers vx } }
  | .AddToIndex vx =>
      let I := (m.index_register + m.registers vx) % 65536
      let m1 := { m with index_register := I }
      some (if I > 0x1000 then m1.set_flag_register 1 else m1)
  | .GetKey vx =>
      match m.findKey with
      | some key => some (m.setReg vx key)
      | none => some { m with program_counter := m.program_counter - 2 }
  | .FontCharacter vx =>
      some { m with index_register := Machine.get_character_address (m.registers vx &&& 0x0F) }
  | .ConvertToDecimal vx =>
      let val := m.registers vx
      let I := m.index_register
      match m.writeRam I (val / 100) with
      | none => none
      | some m1 =>
        match m1.writeRam (I + 1) ((val / 10) % 10) with
        | none => none
        | some m2 =>
          match m2.writeRam (I + 2) (val % 10) with
          | none => none
          | some m3 => some m3
  | .RegistersToMemory vx => m.storeRegs vx 0
  | .MemoryToRegisters vx => m.loadRegs vx 0

/-- The tail of `Machine::execute_one` (its last two statements): clear all
16 `key_pressed` entries (`self.key_pressed.fill(false)`) and invoke one
`Timers::tick` at wall-clock time `t`. -/
def Machine.finishCycle (t : ℚ) (m2 : Machine) : Option Machine :=
  match Timers.tick t m2.timers with
  | none => none
  | some tm => some { m2 with key_pressed := fun _ => false, timers := tm }

/-- `Machine::execute_one` at wall-clock time `t` with random byte `rand`:
fetch the big-endian word at `pc`, advance `pc` by 2, execute, clear all
keys, tick the timers once. -/
def Machine.execute_one (t : ℚ) (rand : Nat) (m : Machine) : Option Machine :=
  match m.readRam m.program_counter with
  | none => none
  | some hi =>
    match m.readRam (m.program_counter + 1) with
    | none => none
    | some lo =>
      match ({ m with program_counter := m.program_counter + 2 } : Machine).execInstr
          (decode ((hi <<< 8) ||| lo)) rand with
      | none => none
      | some m2 => m2.finishCycle t

/-- The `FONT` table from `machine.rs` (80 bytes, 16 glyphs × 5 rows). -/
def FONT : List Nat :=
  [0xF0, 0x90, 0x90, 0x90, 0xF0,
   0x20, 0x60, 0x20, 0x20, 0x70,
   0xF0, 0x10, 0xF0, 0x80, 0xF0,
   0xF0, 0x10, 0xF0, 0x10, 0xF0,
   0x90, 0x90, 0xF0, 0x10, 0x10,
   0xF0, 0x80, 0xF0, 0x10, 0xF0,
   0xF0, 0x80, 0xF0, 0x90, 0xF0,
   0xF0, 0x10, 0x20, 0x40, 0x40,
   0xF0, 0x90, 0xF0, 0x90, 0xF0,
   0xF0, 0x90, 0xF0, 0x10, 0xF0,
   0xF0, 0x90, 0xF0, 0x90, 0x90,
   0xE0, 0x90, 0xE0, 0x90, 0xE0,
   0xF0, 0x80, 0x80, 0x80, 0xF0,
   0xE0, 0x90, 0x90, 0x90, 0xE0,
   0xF0, 0x80, 0xF0, 0x80, 0xF0,
   0xF0, 0x80, 0xF0, 0x80, 0x80]

/-- `Machine::init_font`: the loop writes `FONT[i]` to `0x50 + i` for each
of the 80 font bytes; this is its net effect on `ram`. -/
def Machine.init_font (m : Machine) : Machine :=
  { m with ram := fun a =>
      if 0x50 ≤ a ∧ a < 0x50 + 80 then FONT.getD (a - 0x50) 0 else m.ram a }

/-- `Machine::default` created at wall-clock time `t0` (`Timers::default`
samples `now()` for `last_tick`). -/
def Machine.default (t0 : ℚ) : Machine :=
  Machine.init_font
    { display := Display.default
      ram := fun _ => 0
      stack := fun _ => 0
      stack_index := 0
      program_counter := 0
      index_register := 0
      registers := fun _ => 0
      key_pressed := fun _ => false
      timers := { delay := 0, sound := 0, last_tick := t0, last_tick_remainder := 0 } }

/-- The copy loop of `Machine::load_rom_from_bytes`: write byte `v` at
`0x200 + i` (an out-of-bounds panic, `none`, past address 4095). -/
def loadBytesAux : List Nat → Nat → Machine → Option Machine
  | [], _, m => some m
  | v :: rest, i, m =>
    match m.writeRam (0x200 + i) v with
    | none => none
    | some m1 => loadBytesAux rest (i + 1) m1

/-- `Machine::load_rom_from_bytes`: copy the bytes to 0x200.. and set the
program counter to 0x200. -/
def Machine.load_rom_from_bytes (m : Machine) (data : List Nat) : Option Machine :=
  match loadBytesAux data 0 m with
  | none => none
  | some m1 => some { m1 with program_counter := 0x200 }

/-- Specification predicate for the draw inner loop: starting at column
offset `j0`, the sprite byte `s` toggles the pixel at column `px` of the
row (`px` holds a sprite bit 1 and is not clipped at the right edge). -/
abbrev rowCond (x s j0 px py row : Nat) : Prop :=
  py = row ∧ x ≤ px ∧ px < x + 8 ∧ j0 ≤ px - x ∧ px < 64 ∧ spriteBit s (px - x) = 1

/-- Specification predicate: some sprite bit 1 of row `row` (byte `s`,
columns `j0`..7, clipped at 64) lands on a lit pixel of `m`. -/
def RowCollide (m : Machine) (x row s j0 : Nat) : Prop :=
  ∃ j, j0 ≤ j ∧ j < 8 ∧ x + j < 64 ∧ spriteBit s j = 1 ∧
    m.display._pixels row (x + j) = true

/-- Specification predicate for the whole draw: the sprite with top-left
`(x, y)`, `n` rows of bytes at `ram (I + i)` (rows `i0`.., clipped at the
bottom and right edges), toggles the pixel `(px, py)`. -/
abbrev drawsCond (ram : Nat → Nat) (x y n I i0 px py : Nat) : Prop :=
  y ≤ py ∧ i0 ≤ py - y ∧ py - y < n ∧ py < 32 ∧
  x ≤ px ∧ px < x + 8 ∧ px < 64 ∧ spriteBit (ram (I + (py - y))) (px - x) = 1

/-- Specification predicate: some non-clipped sprite bit 1 lands on a lit
pixel of `m` (a collision that sets the flag register). -/
def DrawCollide (m : Machine) (x y n I i0 : Nat) : Prop :=
  ∃ i, i0 ≤ i ∧ i < n ∧ y + i < 32 ∧
    ∃ j, j < 8 ∧ x + j < 64 ∧ spriteBit (m.ram (I + i)) j = 1 ∧
      m.display._pixels (y + i) (x + j) = true

/-- Value bounds carried by the decoded operands (a 12-bit address for the
jump/call targets, an 8-bit immediate for register loads). -/
def InstrWF : Instruction → Prop
  | .Jump v => v < 4096
  | .Subroutine v => v < 4096
  | .JumpWithOffset v => v < 4096
  | .SetRegToVal _ val => val < 256
  | _ => True

/-- The state invariant maintained by execution: the program counter never
exceeds 4350 (a 12-bit target plus register 0), stack entries are pushed
program counters (at most 4096), registers and ram bytes are 8-bit, and the
delay timer is 8-bit. -/
def Machine.Inv (m : Machine) : Prop :=
  m.program_counter ≤ 4350 ∧ (∀ i, m.stack i ≤ 4096) ∧ (∀ i, m.registers i < 256) ∧
  (∀ a, m.ram a < 256) ∧ m.timers.delay ≤ 255

/-- One successful `execute_one` step, for some wall-clock time and random
byte. -/
def Machine.stepTo (a b : Machine) : Prop :=
  ∃ t rand, Machine.execute_one t rand a = some b

/-- States reachable from `m0` by repeatedly calling `execute_one`. -/
def Machine.Reachable (m0 m : Machine) : Prop :=
  Relation.ReflTransGen Machine.stepTo m0 m

/-- A small concrete machine used by witnesses and counterexamples: the two
instruction bytes `b0 b1` sit at 0x200 where the program counter points;
registers 1, 2 and 15 hold 9, 5 and 7. -/
def testMachine (b0 b1 : Nat) : Machine :=
  { display := Display.default
    ram := fun a => if a = 0x200 then b0 else if a = 0x201 then b1 else 0
    stack := fun _ => 0
    stack_index := 0
    program_counter := 0x200
    index_register := 0
    registers := fun i => if i = 15 then 7 else if i = 1 then 9 else if i = 2 then 5 else 0
    key_pressed := fun _ => false
    timers := { delay := 3, sound := 4, last_tick := 0, last_tick_remainder := 0 } }

/-- A machine about to draw a 3-row sprite at `(9, 5)`: `0xD123` with
`registers[1] = 9`, `registers[2] = 5` and sprite bytes at 0x345. -/
def drawMachine : Machine :=
  { testMachine 0xD1 0x23 with
    index_register := 0x345
    ram := fun a => if a = 0x200 then 0xD1 else if a = 0x201 then 0x23
      else if a = 0x345 then 0xF0 else if a = 0x346 then 0x0F
      else if a = 0x347 then 0x3C else 0 }

/-- A machine whose call stack is full (`stack_index = 100`, the capacity)
about to execute a call instruction `0x2204`. -/
def fullStackCallMachine : Machine := { testMachine 0x22 0x04 with stack_index := 100 }

/-- A machine with an empty stack about to execute a return instruction
`0x00EE`. -/
def emptyStackReturnMachine : Machine := testMachine 0x00 0xEE

/-- A machine about to execute a get-key instruction `0xF20A` with key 4
pressed. -/
def getKeyMachine : Machine :=
  { testMachine 0xF2 0x0A with key_pressed := fun i => i == 4 }

/-- A machine about to execute a call `0x2204` whose target holds a return
instruction `0x00EE`. -/
def callReturnMachine : Machine :=
  { testMachine 0x22 0x04 with
    ram := fun a => if a = 0x200 then 0x22 else if a = 0x201 then 0x04
      else if a = 0x204 then 0x00 else if a = 0x205 then 0xEE else 0 }

/-- C1: executing a call with the stack full (stack_index = 100) hits the
unchecked write `stack[100]` (the overflow guard uses `>` and never fires
at the capacity), i.e. the machine panics; popping from an empty stack is
clamped and execution continues. -/
theorem c1_full_stack_call_panics :
    Machine.execute_one 0 0 fullStackCallMachine = none ∧
      (Machine.execute_one 0 0 emptyStackReturnMachine).map
        (fun m => (m.stack_index, m.program_counter)) = some (0, 0) :=
  ⟨rfl, rfl⟩

@[simp] theorem Machine.setReg_display (m : Machine) (r v : Nat) :
    (m.setReg r v).display = m.display := rfl

@[simp] theorem Machine.setReg_ram (m : Machine) (r v : Nat) : (m.setReg r v).ram = m.ram := rfl

@[simp] theorem Machine.setReg_stack (m : Machine) (r v : Nat) :
    (m.setReg r v).stack = m.stack := rfl

@[simp] theorem Machine.setReg_stack_index (m : Machine) (r v : Nat) :
    (m.setReg r v).stack_index = m.stack_index := rfl

@[simp] theorem Machine.setReg_program_counter (m : Machine) (r v : Nat) :
    (m.setReg r v).program_counter = m.program_counter := rfl

@[simp] theorem Machine.setReg_index_register (m : Machine) (r v : Nat) :
    (m.setReg r v).index_register = m.index_register := rfl

@[simp] theorem Machine.setReg_key_pressed (m : Machine) (r v : Nat) :
    (m.setReg r v).key_pressed = m.key_pressed := rfl

@[simp] theorem Machine.setReg_timers (m : Machine) (r v : Nat) :
    (m.setReg r v).timers = m.timers := rfl

@[simp] theorem Machine.setReg_registers (m : Machine) (r v i : Nat) :
    (m.setReg r v).registers i = if i = r then v else m.registers i := rfl

@[simp] theorem Machine.set_flag_register_display (m : Machine) (v : Nat) :
    (m.set_flag_register v).display = m.display := rfl

@[simp] theorem Machine.set_flag_register_ram (m : Machine) (v : Nat) :
    (m.set_flag_register v).ram = m.ram := rfl

@[simp] theorem Machine.set_flag_register_stack (m : Machine) (v : Nat) :
    (m.set_flag_register v).stack = m.stack := rfl

@[simp] theorem Machine.set_flag_register_stack_index (m : Machine) (v : Nat) :
    (m.set_flag_register v).stack_index = m.stack_index := rfl

@[simp] theorem Machine.set_flag_register_program_counter (m : Machine) (v : Nat) :
    (m.set_flag_register v).program_counter = m.program_counter := rfl

@[simp] theorem Machine.set_flag_register_index_register (m : Machine) (v : Nat) :
    (m.set_flag_register v).index_register = m.index_register := rfl

@[simp] theorem Machine.set_flag_register_key_pressed (m : Machine) (v : Nat) :
    (m.set_flag_register v).key_pressed = m.key_pressed := rfl

@[simp] theorem Machine.set_flag_register_timers (m : Machine) (v : Nat) :
    (m.set_flag_register v).timers = m.timers := rfl

@[simp] theorem Machine.set_flag_register_registers (m : Machine) (v i : Nat) :
    (m.set_flag_register v).registers i = if i = 15 then v else m.registers i := rfl

theorem Timers.tick_of_le (tm : Timers) (t : ℚ) (h : tm.last_tick ≤ t) :
    Timers.tick t tm = some (Timers.tickPure t tm) := by
  rw [Timers.tick, if_neg (not_lt.mpr h)]
  rfl

theorem Machine.finishCycle_of_le (m2 : Machine) (t : ℚ)
    (h : m2.timers.last_tick ≤ t) :
    m2.finishCycle t = some
      { m2 with key_pressed := fun _ => false, timers := Timers.tickPure t m2.timers } := by
  simp only [Machine.finishCycle]
  rw [Timers.tick_of_le _ _ h]

theorem Machine.execute_one_some (m : Machine) (t : ℚ) (r : Nat) (m2 : Machine)
    (h : m.program_counter + 1 < 4096)
    (hE : ({ m with program_counter := m.program_counter + 2 } : Machine).execInstr
      (decode ((m.ram m.program_counter <<< 8) ||| m.ram (m.program_counter + 1))) r = some m2) :
    m.execute_one t r = m2.finishCycle t := by
  have h0 : m.program_counter < 4096 := by omega
  simp only [Machine.execute_one, Machine.readRam, h0, h, if_true]
  rw [hE]

theorem Machine.execute_one_run (m : Machine) (t : ℚ) (r : Nat) (m2 : Machine)
    (h : m.program_counter + 1 < 4096)
    (hE : ({ m with program_counter := m.program_counter + 2 } : Machine).execInstr
      (decode ((m.ram m.program_counter <<< 8) ||| m.ram (m.program_counter + 1))) r = some m2)
    (htick : m2.timers.last_tick ≤ t) :
    m.execute_one t r = some
      { m2 with key_pressed := fun _ => false, timers := Timers.tickPure t m2.timers } := by
  rw [Machine.execute_one_some m t r m2 h hE, Machine.finishCycle_of_le m2 t htick]

theorem loadBytesAux_none (data : List Nat) (i : Nat) (m : Machine)
    (hlen : 4096 < 0x200 + i + data.length) (hne : data ≠ []) :
    loadBytesAux data i m = none := by
  induction data generalizing i m with
  | nil => exact absurd rfl hne
  | cons v rest ih =>
    simp only [loadBytesAux, Machine.writeRam]
    by_cases h : 0x200 + i < 4096
    · rw [if_pos h]
      rcases rest with - | ⟨w, rest'⟩
      · simp only [List.length_cons, List.length_nil] at hlen
        omega
      · exact ih (i + 1) _ (by simp only [List.length_cons] at hlen ⊢; omega) (by simp)
    · rw [if_neg h]

theorem loadBytesAux_some (data : List Nat) (i : Nat) (m : Machine)
    (hlen : 0x200 + i + data.length ≤ 4096) :
    ∃ m', loadBytesAux data i m = some m' ∧
      (∀ a, m'.ram a =
        if 0x200 + i ≤ a ∧ a < 0x200 + i + data.length then data.getD (a - (0x200 + i)) 0
        else m.ram a) ∧
      m'.display = m.display ∧ m'.stack = m.stack ∧ m'.stack_index = m.stack_index ∧
      m'.program_counter = m.program_counter ∧ m'.index_register = m.index_register ∧
      m'.registers = m.registers ∧ m'.key_pressed = m.key_pressed ∧ m'.timers = m.timers := by
  induction data generalizing i m with
  | nil =>
    refine ⟨m, rfl, ?_, rfl, rfl, rfl, rfl, rfl, rfl, rfl, rfl⟩
    intro a
    simp only [List.length_nil, Nat.add_zero]
    rw [if_neg (by omega)]
  | cons v rest ih =>
    simp only [List.length_cons] at hlen
    have hw : 0x200 + i < 4096 := by omega
    simp only [loadBytesAux, Machine.writeRam, if_pos hw]
    obtain ⟨m', hload, hram, hrest⟩ := ih (i + 1) _ (by omega)
    refine ⟨m', hload, ?_, hrest⟩
    intro a
    rw [hram a]
    simp only [List.length_cons]
    by_cases h2 : a = 0x200 + i
    · subst h2
      rw [if_neg (by omega), if_pos (by omega)]
      simp
    · by_cases h1 : 0x200 + (i + 1) ≤ a ∧ a < 0x200 + (i + 1) + rest.length
      · rw [if_pos h1, if_pos (by omega)]
        have h3 : a - (0x200 + i) = (a - (0x200 + (i + 1))) + 1 := by omega
        rw [h3, List.getD_cons_succ]
      · rw [if_neg h1, if_neg (by omega), if_neg (by omega)]

/-- C2 counterexample: a 3585-byte ROM does not fit in the 3584 bytes above
0x200; loading it indexes `ram[4096]` and panics instead of silently
truncating. -/
theorem c2_rom_longer_than_memory_panics :
    (Machine.default 0).load_rom_from_bytes (List.replicate 3585 0) = none := by
  have h := loadBytesAux_none (List.replicate 3585 0) 0 (Machine.default 0)
    (by rw [List.length_replicate]; omega)
    (by
      intro hcon
      have hlen := congrArg List.length hcon
      rw [List.length_replicate, List.length_nil] at hlen
      omega)
  simp only [Machine.load_rom_from_bytes, h]

/-- C2 (amended): a ROM of at most 3584 bytes is copied verbatim to 0x200..
with no validation and the program counter is set to 0x200; a longer ROM
panics (see the counterexample), it is not truncated. -/
theorem c2_load_rom_copies_verbatim (m : Machine) (data : List Nat)
    (h : data.length ≤ 3584) :
    ∃ m', m.load_rom_from_bytes data = some m' ∧
      m'.program_counter = 0x200 ∧
      (∀ k, k < data.length → m'.ram (0x200 + k) = data.getD k 0) ∧
      (∀ a, a < 0x200 ∨ 0x200 + data.length ≤ a → m'.ram a = m.ram a) ∧
      m'.registers = m.registers ∧ m'.stack_index = m.stack_index ∧
      m'.display = m.display ∧ m'.timers = m.timers := by
  obtain ⟨m1, hl, hram, hdisp, hstack, hsi, hpc, hir, hreg, hkey, htm⟩ :=
    loadBytesAux_some data 0 m (by omega)
  refine ⟨{ m1 with program_counter := 0x200 }, ?_, rfl, ?_, ?_, hreg, hsi, hdisp, htm⟩
  · simp [Machine.load_rom_from_bytes, hl]
  · intro k hk
    have hh := hram (0x200 + k)
    rw [if_pos (by omega)] at hh
    simpa using hh
  · intro a ha
    have hh := hram a
    rw [if_neg (by omega)] at hh
    exact hh

theorem c2_load_rom_witness :
    ([0xAB, 0xCD] : List Nat).length ≤ 3584 ∧
    ∃ m', (Machine.default 0).load_rom_from_bytes [0xAB, 0xCD] = some m' ∧
      m'.program_counter = 0x200 ∧
      (∀ k, k < ([0xAB, 0xCD] : List Nat).length →
        m'.ram (0x200 + k) = ([0xAB, 0xCD] : List Nat).getD k 0) ∧
      (∀ a, a < 0x200 ∨ 0x200 + ([0xAB, 0xCD] : List Nat).length ≤ a →
        m'.ram a = (Machine.default 0).ram a) ∧
      m'.registers = (Machine.default 0).registers ∧
      m'.stack_index = (Machine.default 0).stack_index ∧
      m'.display = (Machine.default 0).display ∧
      m'.timers = (Machine.default 0).timers :=
  ⟨by norm_num, c2_load_rom_copies_verbatim (Machine.default 0) [0xAB, 0xCD] (by norm_num)⟩

theorem rgbaIndex_eq (px py c : Nat) (hpx : px < 64) (hc : c < 4) :
    (py * 256 + px * 4 + c) / 256 = py ∧ (py * 256 + px * 4 + c) % 256 / 4 = px := by
  have h1 : py * 256 + px * 4 + c = 256 * py + (4 * px + c) := by ring
  constructor
  · rw [h1, Nat.mul_add_div (by norm_num), Nat.div_eq_of_lt (by omega)]
    omega
  · rw [h1, Nat.mul_add_mod, Nat.mod_eq_of_lt (by omega), Nat.mul_add_div (by norm_num),
      Nat.div_eq_of_lt (by omega)]
    omega

/-- C9 counterexample: the alpha channel of an off pixel is 0 (fully
transparent), not 255: the packed buffer is not "fully opaque black" for
off pixels. -/
theorem c9_off_pixel_is_transparent :
    Display.default._pixels 0 0 = false ∧ Display.default._rgba 3 = 0 ∧
      ¬ Display.default._rgba 3 = 255 := by
  decide

/-- C9 (amended): after any `set_pixel`, every byte of every in-range pixel
of the packed buffer equals 255 when that pixel is on and 0 when it is off
(so "on" is opaque white, but "off" is transparent black, alpha included);
the buffer is recomputed with the pixel change applied. -/
theorem c9_rgba_consistent (d : Display) (x y : Nat) (v : Bool) (px py c : Nat)
    (hpx : px < 64) (hpy : py < 32) (hc : c < 4) :
    ((d.set_pixel x y v)._pixels py px = if py = y ∧ px = x then v else d._pixels py px) ∧
    (d.set_pixel x y v)._rgba (py * 256 + px * 4 + c) =
      (if (d.set_pixel x y v)._pixels py px then 255 else 0) := by
  obtain ⟨hdiv, hmod⟩ := rgbaIndex_eq px py c hpx hc
  constructor
  · rfl
  · show (if py * 256 + px * 4 + c < 32 * 64 * 4 then
        (if (fun i j => if i = y ∧ j = x then v else d._pixels i j)
          ((py * 256 + px * 4 + c) / 256) ((py * 256 + px * 4 + c) % 256 / 4) then 255 else 0)
      else d._rgba (py * 256 + px * 4 + c)) = _
    rw [if_pos (by omega), hdiv, hmod]
    rfl

theorem c9_rgba_consistent_witness :
    (1 : Nat) < 64 ∧ (2 : Nat) < 32 ∧ (3 : Nat) < 4 ∧
    (((Display.default.set_pixel 1 2 true)._pixels 2 1 =
        if (2 : Nat) = 2 ∧ (1 : Nat) = 1 then true else Display.default._pixels 2 1) ∧
      (Display.default.set_pixel 1 2 true)._rgba (2 * 256 + 1 * 4 + 3) =
        (if (Display.default.set_pixel 1 2 true)._pixels 2 1 then 255 else 0)) :=
  ⟨by norm_num, by norm_num, by norm_num,
    c9_rgba_consistent Display.default 1 2 true 1 2 3 (by norm_num) (by norm_num) (by norm_num)⟩

/-- C10: in the arithmetic instructions 8XY4/8XY5/8XY7/8XY6/8XYE the flag
register VF is written before the result register, so when the destination
register is VF itself (rx = 15) the arithmetic result overwrites the flag:
after executing any of them with rx = 15, register 15 holds the wrapped
sum/difference/shift of the original operand values, not the carry/borrow
flag. -/
theorem c10_flag_written_before_result (m : Machine) (t : ℚ) (r : Nat)
    (hpc : m.program_counter + 1 < 4096)
    (htick : m.timers.last_tick ≤ t) :
    (∀ ry, decode ((m.ram m.program_counter <<< 8) ||| m.ram (m.program_counter + 1)) =
        .Add 15 ry →
      ∃ m', m.execute_one t r = some m' ∧
        m'.registers 15 = (m.registers 15 + m.registers ry) % 256) ∧
    (∀ ry, decode ((m.ram m.program_counter <<< 8) ||| m.ram (m.program_counter + 1)) =
        .SubtractXY 15 ry →
      ∃ m', m.execute_one t r = some m' ∧
        m'.registers 15 = (m.registers 15 + 256 - m.registers ry) % 256) ∧
    (∀ ry, decode ((m.ram m.program_counter <<< 8) ||| m.ram (m.program_counter + 1)) =
        .SubtractYX 15 ry →
      ∃ m', m.execute_one t r = some m' ∧
        m'.registers 15 = (m.registers ry + 256 - m.registers 15) % 256) ∧
    (∀ ry, decode ((m.ram m.program_counter <<< 8) ||| m.ram (m.program_counter + 1)) =
        .ShiftRight 15 ry →
      ∃ m', m.execute_one t r = some m' ∧
        m'.registers 15 = m.registers 15 / 2) ∧
    (∀ ry, decode ((m.ram m.program_counter <<< 8) ||| m.ram (m.program_counter + 1)) =
        .ShiftLeft 15 ry →
      ∃ m', m.execute_one t r = some m' ∧
        m'.registers 15 = m.registers 15 * 2 % 256) := by
  refine ⟨?_, ?_, ?_, ?_, ?_⟩ <;> intro ry hdec <;>
    refine ⟨_, Machine.execute_one_run m t r _ hpc (by rw [hdec]; rfl) ?_, ?_⟩ <;>
    simp only [Machine._execute_subtract, Machine.setReg_timers, apply_ite Machine.timers,
      Machine.set_flag_register_timers, ite_self] <;>
  first
    | exact htick
    | simp [Machine._execute_subtract]

theorem c10_flag_written_before_result_witness :
    (testMachine 0x8F 0x14).program_counter + 1 < 4096 ∧
    (testMachine 0x8F 0x14).timers.last_tick ≤ (0 : ℚ) ∧
    decode (((testMachine 0x8F 0x14).ram (testMachine 0x8F 0x14).program_counter <<< 8) |||
        (testMachine 0x8F 0x14).ram ((testMachine 0x8F 0x14).program_counter + 1)) =
      .Add 15 1 ∧
    ∃ m', (testMachine 0x8F 0x14).execute_one 0 0 = some m' ∧
      m'.registers 15 =
        ((testMachine 0x8F 0x14).registers 15 + (testMachine 0x8F 0x14).registers 1) % 256 :=
  ⟨by decide, le_refl 0,
    by decide,
    (c10_flag_written_before_result (testMachine 0x8F 0x14) 0 0 (by decide) (le_refl 0)).1
      1 (by decide)⟩

@[simp] theorem Machine.drawPixel_ram (m : Machine) (px py : Nat) :
    (m.drawPixel px py).ram = m.ram := by
  unfold Machine.drawPixel; split <;> rfl

@[simp] theorem Machine.drawPixel_program_counter (m : Machine) (px py : Nat) :
    (m.drawPixel px py).program_counter = m.program_counter := by
  unfold Machine.drawPixel; split <;> rfl

@[simp] theorem Machine.drawPixel_stack (m : Machine) (px py : Nat) :
    (m.drawPixel px py).stack = m.stack := by
  unfold Machine.drawPixel; split <;> rfl

@[simp] theorem Machine.drawPixel_stack_index (m : Machine) (px py : Nat) :
    (m.drawPixel px py).stack_index = m.stack_index := by
  unfold Machine.drawPixel; split <;> rfl

@[simp] theorem Machine.drawPixel_index_register (m : Machine) (px py : Nat) :
    (m.drawPixel px py).index_register = m.index_register := by
  unfold Machine.drawPixel; split <;> rfl

@[simp] theorem Machine.drawPixel_key_pressed (m : Machine) (px py : Nat) :
    (m.drawPixel px py).key_pressed = m.key_pressed := by
  unfold Machine.drawPixel; split <;> rfl

@[simp] theorem Machine.drawPixel_timers (m : Machine) (px py : Nat) :
    (m.drawPixel px py).timers = m.timers := by
  unfold Machine.drawPixel; split <;> rfl

theorem Machine.drawPixel_registers (m : Machine) (px py i : Nat) :
    (m.drawPixel px py).registers i =
      if i = 15 ∧ m.display.pixel px py = true then 1 else m.registers i := by
  unfold Machine.drawPixel
  by_cases hp : m.display.pixel px py = true
  · simp only [hp, if_pos hp]
    by_cases hi : i = 15 <;> simp [hi]
  · simp only [Bool.not_eq_true] at hp
    simp [hp]

theorem Machine.drawRowAux_frame (x row s : Nat) : ∀ (fuel j : Nat), 8 - j = fuel →
    ∀ m : Machine,
    (Machine.drawRowAux x row s j m).ram = m.ram ∧
    (Machine.drawRowAux x row s j m).program_counter = m.program_counter ∧
    (Machine.drawRowAux x row s j m).stack = m.stack ∧
    (Machine.drawRowAux x row s j m).stack_index = m.stack_index ∧
    (Machine.drawRowAux x row s j m).index_register = m.index_register ∧
    (Machine.drawRowAux x row s j m).key_pressed = m.key_pressed ∧
    (Machine.drawRowAux x row s j m).timers = m.timers ∧
    (∀ i, i ≠ 15 → (Machine.drawRowAux x row s j m).registers i = m.registers i) ∧
    ((Machine.drawRowAux x row s j m).registers 15 = m.registers 15 ∨
      (Machine.drawRowAux x row s j m).registers 15 = 1) := by
  intro fuel
  induction fuel with
  | zero =>
    intro j hj m
    rw [Machine.drawRowAux, if_pos (by omega)]
    exact ⟨rfl, rfl, rfl, rfl, rfl, rfl, rfl, fun i _ => rfl, Or.inl rfl⟩
  | succ n ih =>
    intro j hj m
    rw [Machine.drawRowAux]
    by_cases h8 : 8 ≤ j
    · rw [if_pos h8]
      exact ⟨rfl, rfl, rfl, rfl, rfl, rfl, rfl, fun i _ => rfl, Or.inl rfl⟩
    · rw [if_neg h8]
      by_cases hx : 64 ≤ x + j
      · rw [if_pos hx]
        exact ⟨rfl, rfl, rfl, rfl, rfl, rfl, rfl, fun i _ => rfl, Or.inl rfl⟩
      · rw [if_neg hx]
        set m1 := if spriteBit s j = 0 then m else m.drawPixel (x + j) row with hm1
        obtain ⟨h1, h2, h3, h4, h5, h6, h7, h8r, h9⟩ := ih (j + 1) (by omega) m1
        have hm1ram : m1.ram = m.ram := by
          rw [hm1]; split <;> simp
        have hm1pc : m1.program_counter = m.program_counter := by
          rw [hm1]; split <;> simp
        have hm1stack : m1.stack = m.stack := by
          rw [hm1]; split <;> simp
        have hm1si : m1.stack_index = m.stack_index := by
          rw [hm1]; split <;> simp
        have hm1ir : m1.index_register = m.index_register := by
          rw [hm1]; split <;> simp
        have hm1kp : m1.key_pressed = m.key_pressed := by
          rw [hm1]; split <;> simp
        have hm1tm : m1.timers = m.timers := by
          rw [hm1]; split <;> simp
        have hm1rne : ∀ i, i ≠ 15 → m1.registers i = m.registers i := by
          intro i hi
          rw [hm1]; split
          · rfl
          · rw [Machine.drawPixel_registers, if_neg (by simp [hi])]
        have hm1r15 : m1.registers 15 = m.registers 15 ∨ m1.registers 15 = 1 := by
          rw [hm1]; split
          · exact Or.inl rfl
          · rw [Machine.drawPixel_registers]
            split
            · exact Or.inr rfl
            · exact Or.inl rfl
        refine ⟨h1.trans hm1ram, h2.trans hm1pc, h3.trans hm1stack, h4.trans hm1si,
          h5.trans hm1ir, h6.trans hm1kp, h7.trans hm1tm,
          fun i hi => (h8r i hi).trans (hm1rne i hi), ?_⟩
        rcases h9 with h9 | h9
        · rw [h9]; exact hm1r15
        · exact Or.inr h9

theorem Machine.drawRows_frame (x y nrows I : Nat) : ∀ (fuel i : Nat), nrows - i = fuel →
    ∀ (m m2 : Machine), Machine.drawRows x y nrows I i m = some m2 →
    m2.ram = m.ram ∧
    m2.program_counter = m.program_counter ∧
    m2.stack = m.stack ∧
    m2.stack_index = m.stack_index ∧
    m2.index_register = m.index_register ∧
    m2.key_pressed = m.key_pressed ∧
    m2.timers = m.timers ∧
    (∀ i, i ≠ 15 → m2.registers i = m.registers i) ∧
    (m2.registers 15 = m.registers 15 ∨ m2.registers 15 = 1) := by
  intro fuel
  induction fuel with
  | zero =>
    intro i hi m m2 hE
    rw [Machine.drawRows, if_pos (by omega)] at hE
    obtain rfl : m = m2 := by injection hE
    exact ⟨rfl, rfl, rfl, rfl, rfl, rfl, rfl, fun i _ => rfl, Or.inl rfl⟩
  | succ n ih =>
    intro i hi m m2 hE
    rw [Machine.drawRows] at hE
    by_cases hn : nrows ≤ i
    · rw [if_pos hn] at hE
      obtain rfl : m = m2 := by injection hE
      exact ⟨rfl, rfl, rfl, rfl, rfl, rfl, rfl, fun i _ => rfl, Or.inl rfl⟩
    · rw [if_neg hn] at hE
      by_cases hy : 32 ≤ y + i
      · rw [if_pos hy] at hE
        obtain rfl : m = m2 := by injection hE
        exact ⟨rfl, rfl, rfl, rfl, rfl, rfl, rfl, fun i _ => rfl, Or.inl rfl⟩
      · rw [if_neg hy] at hE
        unfold Machine.readRam at hE
        by_cases hI : I + i < 4096
        · rw [if_pos hI] at hE
          obtain ⟨g1, g2, g3, g4, g5, g6, g7, g8, g9⟩ :=
            Machine.drawRowAux_frame x (y + i) (m.ram (I + i)) 8 0 rfl m
          obtain ⟨h1, h2, h3, h4, h5, h6, h7, h8, h9⟩ := ih (i + 1) (by omega) _ m2 hE
          refine ⟨h1.trans g1, h2.trans g2, h3.trans g3, h4.trans g4, h5.trans g5,
            h6.trans g6, h7.trans g7, fun i hi15 => (h8 i hi15).trans (g8 i hi15), ?_⟩
          rcases h9 with h9 | h9
          · rw [h9]; exact g9
          · exact Or.inr h9
        · rw [if_neg hI] at hE
          exact absurd hE (by simp)

theorem Machine.push_stack_frame (m : Machine) (v : Nat) (m2 : Machine)
    (h : m.push_stack v = some m2) :
    m2.display = m.display ∧ m2.ram = m.ram ∧ m2.program_counter = m.program_counter ∧
    m2.index_register = m.index_register ∧ m2.registers = m.registers ∧
    m2.key_pressed = m.key_pressed ∧ m2.timers = m.timers := by
  unfold Machine.push_stack at h
  by_cases h100 : m.stack_index > 100 <;>
    simp only [h100, if_true, if_false] at h <;> split at h <;>
      first
        | (obtain rfl := (Option.some_inj.mp h).symm
           exact ⟨rfl, rfl, rfl, rfl, rfl, rfl, rfl⟩)
        | exact absurd h (by simp)

theorem Machine.pop_stack_frame (m : Machine) (v : Nat) (m2 : Machine)
    (h : m.pop_stack = some (v, m2)) :
    m2.display = m.display ∧ m2.ram = m.ram ∧ m2.program_counter = m.program_counter ∧
    m2.index_register = m.index_register ∧ m2.registers = m.registers ∧
    m2.key_pressed = m.key_pressed ∧ m2.timers = m.timers ∧ m2.stack = m.stack := by
  unfold Machine.pop_stack at h
  by_cases h1 : m.stack_index < 1 <;>
    simp only [h1, if_true, if_false] at h <;> split at h <;>
      first
        | (obtain ⟨rfl, rfl⟩ := Prod.mk.injEq .. ▸ (Option.some_inj.mp h).symm
           exact ⟨rfl, rfl, rfl, rfl, rfl, rfl, rfl, rfl⟩)
        | exact absurd h (by simp)

theorem Machine.writeRam_frame (m : Machine) (a v : Nat) (m2 : Machine)
    (h : m.writeRam a v = some m2) :
    m2.display = m.display ∧ m2.stack = m.stack ∧ m2.stack_index = m.stack_index ∧
    m2.program_counter = m.program_counter ∧ m2.index_register = m.index_register ∧
    m2.registers = m.registers ∧ m2.key_pressed = m.key_pressed ∧ m2.timers = m.timers := by
  unfold Machine.writeRam at h
  split at h
  · obtain rfl := (Option.some_inj.mp h).symm
    exact ⟨rfl, rfl, rfl, rfl, rfl, rfl, rfl, rfl⟩
  · exact absurd h (by simp)

theorem Machine.storeRegs_frame (vx : Nat) : ∀ (fuel i : Nat), vx + 1 - i = fuel →
    ∀ (m m2 : Machine), Machine.storeRegs vx i m = some m2 →
    m2.display = m.display ∧ m2.stack = m.stack ∧ m2.stack_index = m.stack_index ∧
    m2.program_counter = m.program_counter ∧ m2.index_register = m.index_register ∧
    m2.registers = m.registers ∧ m2.key_pressed = m.key_pressed ∧ m2.timers = m.timers := by
  intro fuel
  induction fuel with
  | zero =>
    intro i hi m m2 hE
    rw [Machine.storeRegs, if_neg (by omega)] at hE
    obtain rfl : m = m2 := by injection hE
    exact ⟨rfl, rfl, rfl, rfl, rfl, rfl, rfl, rfl⟩
  | succ n ih =>
    intro i hi m m2 hE
    rw [Machine.storeRegs] at hE
    by_cases hlt : i < vx + 1
    · rw [if_pos hlt] at hE
      split at hE
      · exact absurd hE (by simp)
      · rename_i m1 hw
        obtain ⟨g1, g2, g3, g4, g5, g6, g7, g8⟩ := Machine.writeRam_frame _ _ _ _ hw
        obtain ⟨h1, h2, h3, h4, h5, h6, h7, h8⟩ := ih (i + 1) (by omega) _ m2 hE
        exact ⟨h1.trans g1, h2.trans g2, h3.trans g3, h4.trans g4, h5.trans g5,
          h6.trans g6, h7.trans g7, h8.trans g8⟩
    · rw [if_neg hlt] at hE
      obtain rfl : m = m2 := by injection hE
      exact ⟨rfl, rfl, rfl, rfl, rfl, rfl, rfl, rfl⟩

theorem Machine.loadRegs_frame (vx : Nat) : ∀ (fuel i : Nat), vx + 1 - i = fuel →
    ∀ (m m2 : Machine), Machine.loadRegs vx i m = some m2 →
    m2.display = m.display ∧ m2.stack = m.stack ∧ m2.stack_index = m.stack_index ∧
    m2.program_counter = m.program_counter ∧ m2.index_register = m.index_register ∧
    m2.ram = m.ram ∧ m2.key_pressed = m.key_pressed ∧ m2.timers = m.timers := by
  intro fuel
  induction fuel with
  | zero =>
    intro i hi m m2 hE
    rw [Machine.loadRegs, if_neg (by omega)] at hE
    obtain rfl : m = m2 := by injection hE
    exact ⟨rfl, rfl, rfl, rfl, rfl, rfl, rfl, rfl⟩
  | succ n ih =>
    intro i hi m m2 hE
    rw [Machine.loadRegs] at hE
    by_cases hlt : i < vx + 1
    · rw [if_pos hlt] at hE
      unfold Machine.readRam at hE
      split at hE
      · exact absurd hE (by simp)
      · obtain ⟨h1, h2, h3, h4, h5, h6, h7, h8⟩ := ih (i + 1) (by omega) _ m2 hE
        exact ⟨h1, h2, h3, h4, h5, h6, h7, h8⟩
    · rw [if_neg hlt] at hE
      obtain rfl : m = m2 := by injection hE
      exact ⟨rfl, rfl, rfl, rfl, rfl, rfl, rfl, rfl⟩

theorem Machine.execInstr_timers (m : Machine) (instr : Instruction) (r : Nat) (m2 : Machine)
    (hE : m.execInstr instr r = some m2) :
    m2.timers.last_tick = m.timers.last_tick ∧
    m2.timers.last_tick_remainder = m.timers.last_tick_remainder := by
  cases instr with
  | Zero => obtain rfl := (Option.some_inj.mp hE).symm; exact ⟨rfl, rfl⟩
  | ClearScreen => obtain rfl := (Option.some_inj.mp hE).symm; exact ⟨rfl, rfl⟩
  | Jump v => obtain rfl := (Option.some_inj.mp hE).symm; exact ⟨rfl, rfl⟩
  | SetRegToVal reg val => obtain rfl := (Option.some_inj.mp hE).symm; exact ⟨rfl, rfl⟩
  | AddValToReg reg val => obtain rfl := (Option.some_inj.mp hE).symm; exact ⟨rfl, rfl⟩
  | SetIndexRegister val => obtain rfl := (Option.some_inj.mp hE).symm; exact ⟨rfl, rfl⟩
  | Display rx ry nr =>
    obtain ⟨-, -, -, -, -, -, h7, -, -⟩ :=
      Machine.drawRows_frame (m.registers rx % 64) (m.registers ry % 32) nr
        m.index_register nr 0 rfl (m.set_flag_register 0) m2 hE
    exact ⟨congrArg Timers.last_tick h7, congrArg Timers.last_tick_remainder h7⟩
  | Subroutine v =>
    simp only [Machine.execInstr] at hE
    split at hE
    · exact absurd hE (by simp)
    · rename_i m1 hpush
      obtain rfl := (Option.some_inj.mp hE).symm
      obtain ⟨-, -, -, -, -, -, h7⟩ := Machine.push_stack_frame m _ m1 hpush
      exact ⟨congrArg Timers.last_tick h7, congrArg Timers.last_tick_remainder h7⟩
  | Return =>
    simp only [Machine.execInstr] at hE
    split at hE
    · exact absurd hE (by simp)
    · rename_i v1 m1 hpop
      obtain rfl := (Option.some_inj.mp hE).symm
      obtain ⟨-, -, -, -, -, -, h7, -⟩ := Machine.pop_stack_frame m v1 m1 hpop
      exact ⟨congrArg Timers.last_tick h7, congrArg Timers.last_tick_remainder h7⟩
  | Unknown b => obtain rfl := (Option.some_inj.mp hE).symm; exact ⟨rfl, rfl⟩
  | SkipIfEqualRegVal reg val =>
    obtain rfl := (Option.some_inj.mp hE).symm
    split <;> exact ⟨rfl, rfl⟩
  | SkipIfNotEqualRegVal reg val =>
    obtain rfl := (Option.some_inj.mp hE).symm
    split <;> exact ⟨rfl, rfl⟩
  | SkipIfEqualRegReg r1 r2 =>
    obtain rfl := (Option.some_inj.mp hE).symm
    split <;> exact ⟨rfl, rfl⟩
  | SkipIfNotEqualRegReg r1 r2 =>
    obtain rfl := (Option.some_inj.mp hE).symm
    split <;> exact ⟨rfl, rfl⟩
  | Set rx ry => obtain rfl := (Option.some_inj.mp hE).symm; exact ⟨rfl, rfl⟩
  | Or rx ry => obtain rfl := (Option.some_inj.mp hE).symm; exact ⟨rfl, rfl⟩
  | And rx ry => obtain rfl := (Option.some_inj.mp hE).symm; exact ⟨rfl, rfl⟩
  | Xor rx ry => obtain rfl := (Option.some_inj.mp hE).symm; exact ⟨rfl, rfl⟩
  | Add rx ry =>
    obtain rfl := (Option.some_inj.mp hE).symm
    split <;> exact ⟨rfl, rfl⟩
  | SubtractXY rx ry =>
    obtain rfl := (Option.some_inj.mp hE).symm
    unfold Machine._execute_subtract
    split <;> exact ⟨rfl, rfl⟩
  | SubtractYX rx ry =>
    obtain rfl := (Option.some_inj.mp hE).symm
    unfold Machine._execute_subtract
    split <;> exact ⟨rfl, rfl⟩
  | ShiftLeft rx ry => obtain rfl := (Option.some_inj.mp hE).symm; exact ⟨rfl, rfl⟩
  | ShiftRight rx ry => obtain rfl := (Option.some_inj.mp hE).symm; exact ⟨rfl, rfl⟩
  | JumpWithOffset offset => obtain rfl := (Option.some_inj.mp hE).symm; exact ⟨rfl, rfl⟩
  | Random rx v => obtain rfl := (Option.some_inj.mp hE).symm; exact ⟨rfl, rfl⟩
  | SkipIfKeyPressed vx =>
    simp only [Machine.execInstr, Machine.readKey] at hE
    split at hE
    · exact absurd hE (by simp)
    · obtain rfl := (Option.some_inj.mp hE).symm
      split <;> exact ⟨rfl, rfl⟩
  | SkipIfKeyNotPressed vx =>
    simp only [Machine.execInstr, Machine.readKey] at hE
    split at hE
    · exact absurd hE (by simp)
    · obtain rfl := (Option.some_inj.mp hE).symm
      split <;> exact ⟨rfl, rfl⟩
  | ReadDelayTimer vx => obtain rfl := (Option.some_inj.mp hE).symm; exact ⟨rfl, rfl⟩
  | SetDelayTimer vx => obtain rfl := (Option.some_inj.mp hE).symm; exact ⟨rfl, rfl⟩
  | SetSoundTimer vx => obtain rfl := (Option.some_inj.mp hE).symm; exact ⟨rfl, rfl⟩
  | AddToIndex vx =>
    obtain rfl := (Option.some_inj.mp hE).symm
    split <;> exact ⟨rfl, rfl⟩
  | GetKey vx =>
    simp only [Machine.execInstr] at hE
    split at hE <;> (obtain rfl := (Option.some_inj.mp hE).symm; exact ⟨rfl, rfl⟩)
  | FontCharacter vx => obtain rfl := (Option.some_inj.mp hE).symm; exact ⟨rfl, rfl⟩
  | ConvertToDecimal vx =>
    simp only [Machine.execInstr] at hE
    split at hE
    · exact absurd hE (by simp)
    · rename_i m1 hw1
      split at hE
      · exact absurd hE (by simp)
      · rename_i mB hw2
        split at hE
        · exact absurd hE (by simp)
        · rename_i mC hw3
          obtain rfl := (Option.some_inj.mp hE).symm
          obtain ⟨-, -, -, -, -, -, -, g1⟩ := Machine.writeRam_frame _ _ _ _ hw1
          obtain ⟨-, -, -, -, -, -, -, g2⟩ := Machine.writeRam_frame _ _ _ _ hw2
          obtain ⟨-, -, -, -, -, -, -, g3⟩ := Machine.writeRam_frame _ _ _ _ hw3
          rw [g3, g2, g1]
          exact ⟨rfl, rfl⟩
  | RegistersToMemory vx =>
    obtain ⟨-, -, -, -, -, -, -, h8⟩ :=
      Machine.storeRegs_frame vx (vx + 1) 0 rfl m m2 hE
    rw [h8]
    exact ⟨rfl, rfl⟩
  | MemoryToRegisters vx =>
    obtain ⟨-, -, -, -, -, -, -, h8⟩ :=
      Machine.loadRegs_frame vx (vx + 1) 0 rfl m m2 hE
    rw [h8]
    exact ⟨rfl, rfl⟩

theorem Timers.tick_eq_some (t : ℚ) (tmr tm' : Timers) (h : Timers.tick t tmr = some tm') :
    ¬ t < tmr.last_tick ∧ tm' = Timers.tickPure t tmr := by
  unfold Timers.tick at h
  split at h
  · exact absurd h (by simp)
  · exact ⟨by assumption, (Option.some_inj.mp h).symm⟩

/-- C8: every successful `execute_one` cycle ends by clearing all 16
`key_pressed` entries to false and calling `Timers::tick` exactly once: the
resulting timers are one `tickPure` step (at the cycle's wall-clock time)
from timers whose `last_tick`/`last_tick_remainder` are the pre-cycle ones
(the instruction body can change only the delay/sound counters). -/
theorem c8_keys_cleared_one_tick (m : Machine) (t : ℚ) (r : Nat) (m' : Machine)
    (h : m.execute_one t r = some m') :
    (∀ i, i < 16 → m'.key_pressed i = false) ∧
    ∃ d s, m'.timers = Timers.tickPure t
      { delay := d, sound := s, last_tick := m.timers.last_tick
        last_tick_remainder := m.timers.last_tick_remainder } := by
  unfold Machine.execute_one at h
  split at h
  · exact absurd h (by simp)
  · rename_i hi hfetch1
    split at h
    · exact absurd h (by simp)
    · rename_i lo hfetch2
      split at h
      · exact absurd h (by simp)
      · rename_i m2 hE
        unfold Machine.finishCycle at h
        split at h
        · exact absurd h (by simp)
        · rename_i tm htm
          obtain rfl := (Option.some_inj.mp h).symm
          obtain ⟨hlt, hrem⟩ := Machine.execInstr_timers _ _ _ _ hE
          obtain ⟨-, htm'⟩ := Timers.tick_eq_some t _ tm htm
          refine ⟨fun i _ => rfl, m2.timers.delay, m2.timers.sound, ?_⟩
          show tm = _
          rw [htm']
          rcases hT : m2.timers with ⟨d0, s0, lt0, rem0⟩
          rw [hT] at hlt hrem
          simp only at hlt hrem
          rw [hlt, hrem]

theorem c8_keys_cleared_one_tick_witness :
    ∃ m', ({ testMachine 0x00 0xE0 with
        key_pressed := fun i => i == 3 } : Machine).execute_one 0 0 = some m' ∧
      ((∀ i, i < 16 → m'.key_pressed i = false) ∧
      ∃ d s, m'.timers = Timers.tickPure 0
        { delay := d, sound := s
          last_tick := ({ testMachine 0x00 0xE0 with
            key_pressed := fun i => i == 3 } : Machine).timers.last_tick
          last_tick_remainder := ({ testMachine 0x00 0xE0 with
            key_pressed := fun i => i == 3 } : Machine).timers.last_tick_remainder }) :=
  ⟨_, rfl, c8_keys_cleared_one_tick _ 0 0 _ rfl⟩

theorem find_range'_eq_some (p : Nat → Bool) :
    ∀ (n s k : Nat), s ≤ k → k < s + n → p k = true → (∀ j, s ≤ j → j < k → p j = false) →
    (List.range' s n).find? p = some k := by
  intro n
  induction n with
  | zero => intro s k h1 h2; omega
  | succ n ih =>
    intro s k h1 h2 hp hmin
    rw [List.range'_succ, List.find?_cons]
    by_cases hs : k = s
    · subst hs
      rw [hp]
    · have hps : p s = false := hmin s le_rfl (by omega)
      rw [hps]
      exact ih (s + 1) k (by omega) (by omega) hp (fun j hj1 hj2 => hmin j (by omega) hj2)

theorem Machine.findKey_eq_none (m : Machine)
    (h : ∀ i, i < 16 → m.key_pressed i = false) : m.findKey = none := by
  rw [Machine.findKey, List.find?_eq_none]
  intro x hx
  rw [h x (List.mem_range.mp hx)]
  simp

theorem Machine.findKey_eq_some (m : Machine) (k : Nat) (hk : k < 16)
    (hp : m.key_pressed k = true) (hmin : ∀ j, j < k → m.key_pressed j = false) :
    m.findKey = some k := by
  rw [Machine.findKey, List.range_eq_range']
  exact find_range'_eq_some _ 16 0 k (by omega) (by omega) hp
    (fun j _ hj2 => hmin j hj2)

/-- C6: the GetKey instruction FX0A busy-waits: with no key pressed the
cycle completes with the program counter back at the same instruction
(pc + 2 - 2), so the instruction re-executes; when at least one key is
pressed, the lowest pressed key index is stored in VX and the program
counter moves past the instruction. -/
theorem c6_get_key (m : Machine) (t : ℚ) (r : Nat) (vx : Nat)
    (hpc : m.program_counter + 1 < 4096)
    (htick : m.timers.last_tick ≤ t)
    (hdec : decode ((m.ram m.program_counter <<< 8) ||| m.ram (m.program_counter + 1)) =
      .GetKey vx) :
    ((∀ i, i < 16 → m.key_pressed i = false) →
      ∃ m', m.execute_one t r = some m' ∧ m'.program_counter = m.program_counter) ∧
    (∀ k, k < 16 → m.key_pressed k = true → (∀ j, j < k → m.key_pressed j = false) →
      ∃ m', m.execute_one t r = some m' ∧ m'.registers vx = k ∧
        m'.program_counter = m.program_counter + 2) := by
  constructor
  · intro hnone
    have hfind : ({ m with program_counter := m.program_counter + 2 } : Machine).findKey =
        none := Machine.findKey_eq_none _ hnone
    refine ⟨_, Machine.execute_one_run m t r _ hpc
      (by rw [hdec]; simp only [Machine.execInstr, hfind]; try rfl) ?_, ?_⟩
    · exact htick
    · simp
  · intro k hk hp hmin
    have hfind : ({ m with program_counter := m.program_counter + 2 } : Machine).findKey =
        some k := Machine.findKey_eq_some _ k hk hp hmin
    refine ⟨_, Machine.execute_one_run m t r _ hpc
      (by rw [hdec]; simp only [Machine.execInstr, hfind]; try rfl) ?_, ?_, ?_⟩
    · exact htick
    · simp
    · simp

theorem Machine.push_stack_eq (m : Machine) (v : Nat) (h : m.stack_index ≤ 99) :
    m.push_stack v = some
      { m with stack := fun i => if i = m.stack_index then v else m.stack i
               stack_index := m.stack_index + 1 } := by
  unfold Machine.push_stack
  rw [if_neg (show ¬ (m.stack_index > 100) by omega)]
  rw [if_pos (show m.stack_index < 100 by omega)]

theorem Machine.pop_stack_eq (m : Machine) (h1 : 1 ≤ m.stack_index) (h2 : m.stack_index ≤ 100) :
    m.pop_stack = some (m.stack (m.stack_index - 1), { m with stack_index := m.stack_index - 1 }) := by
  unfold Machine.pop_stack
  rw [if_neg (show ¬ (m.stack_index < 1) by omega)]
  rw [if_pos (show m.stack_index - 1 < 100 by omega)]

/-- C7: calls and returns balance through the stack: a 2NNN call pushes
the incremented program counter (the return address pc + 2) at the current
stack index, increments the stack index, and jumps to NNN; a later 00EE
return executed with that same stack state pops it back, restoring the
stack index and continuing at pc + 2. -/
theorem c7_call_return_balance (m : Machine) (t : ℚ) (r : Nat) (nnn : Nat)
    (hpc : m.program_counter + 1 < 4096)
    (htick : m.timers.last_tick ≤ t)
    (hdec : decode ((m.ram m.program_counter <<< 8) ||| m.ram (m.program_counter + 1)) =
      .Subroutine nnn)
    (hstack : m.stack_index ≤ 99) :
    ∃ m1, m.execute_one t r = some m1 ∧
      m1.program_counter = nnn ∧
      m1.stack_index = m.stack_index + 1 ∧
      m1.stack m.stack_index = m.program_counter + 2 ∧
      ∀ (mB : Machine) (t2 : ℚ) (r2 : Nat),
        mB.stack = m1.stack → mB.stack_index = m1.stack_index →
        mB.program_counter + 1 < 4096 → mB.timers.last_tick ≤ t2 →
        decode ((mB.ram mB.program_counter <<< 8) ||| mB.ram (mB.program_counter + 1)) =
          .Return →
        ∃ m3, mB.execute_one t2 r2 = some m3 ∧
          m3.stack_index = m.stack_index ∧
          m3.program_counter = m.program_counter + 2 := by
  have hpush := Machine.push_stack_eq
    ({ m with program_counter := m.program_counter + 2 } : Machine)
    (m.program_counter + 2) hstack
  refine ⟨_, Machine.execute_one_run m t r _ hpc
    (by rw [hdec]; simp only [Machine.execInstr, hpush]; try rfl) ?_, ?_, ?_, ?_, ?_⟩
  · exact htick
  · rfl
  · rfl
  · simp
  · intro mB t2 r2 hBstack hBsi hBpc hBtick hBdec
    have hsi : mB.stack_index = m.stack_index + 1 := hBsi
    have hpop := Machine.pop_stack_eq
      ({ mB with program_counter := mB.program_counter + 2 } : Machine)
      (show 1 ≤ mB.stack_index by omega) (show mB.stack_index ≤ 100 by omega)
    refine ⟨_, Machine.execute_one_run mB t2 r2 _ hBpc
      (by rw [hBdec]; simp only [Machine.execInstr, hpop]; try rfl) ?_, ?_, ?_⟩
    · exact hBtick
    · show mB.stack_index - 1 = m.stack_index
      omega
    · show mB.stack (mB.stack_index - 1) = m.program_counter + 2
      rw [hBstack, hsi]
      simp


theorem c6_get_key_witness :
    getKeyMachine.program_counter + 1 < 4096 ∧
    getKeyMachine.timers.last_tick ≤ (0 : ℚ) ∧
    decode ((getKeyMachine.ram getKeyMachine.program_counter <<< 8) |||
      getKeyMachine.ram (getKeyMachine.program_counter + 1)) = .GetKey 2 ∧
    (4 : Nat) < 16 ∧ getKeyMachine.key_pressed 4 = true ∧
    (∀ j, j < 4 → getKeyMachine.key_pressed j = false) ∧
    ∃ m', getKeyMachine.execute_one 0 0 = some m' ∧ m'.registers 2 = 4 ∧
      m'.program_counter = getKeyMachine.program_counter + 2 :=
  ⟨by decide, le_refl 0, by decide, by decide, by decide, by decide,
    (c6_get_key getKeyMachine 0 0 2 (by decide) (le_refl 0) (by decide)).2 4
      (by decide) (by decide) (by decide)⟩

theorem c7_call_return_balance_witness :
    callReturnMachine.program_counter + 1 < 4096 ∧
    callReturnMachine.timers.last_tick ≤ (0 : ℚ) ∧
    decode ((callReturnMachine.ram callReturnMachine.program_counter <<< 8) |||
      callReturnMachine.ram (callReturnMachine.program_counter + 1)) = .Subroutine 0x204 ∧
    callReturnMachine.stack_index ≤ 99 ∧
    ∃ m1, callReturnMachine.execute_one 0 0 = some m1 ∧
      m1.program_counter = 0x204 ∧
      m1.stack_index = callReturnMachine.stack_index + 1 ∧
      m1.stack callReturnMachine.stack_index = callReturnMachine.program_counter + 2 ∧
      ∀ (mB : Machine) (t2 : ℚ) (r2 : Nat),
        mB.stack = m1.stack → mB.stack_index = m1.stack_index →
        mB.program_counter + 1 < 4096 → mB.timers.last_tick ≤ t2 →
        decode ((mB.ram mB.program_counter <<< 8) ||| mB.ram (mB.program_counter + 1)) =
          .Return →
        ∃ m3, mB.execute_one t2 r2 = some m3 ∧
          m3.stack_index = callReturnMachine.stack_index ∧
          m3.program_counter = callReturnMachine.program_counter + 2 :=
  ⟨by decide, le_refl 0, by decide, by decide,
    c7_call_return_balance callReturnMachine 0 0 0x204 (by decide) (le_refl 0)
      (by decide) (by decide)⟩

theorem clampByte_le (x : ℤ) : clampByte x ≤ 255 := by
  unfold clampByte; omega

theorem clampByte_comp (d D1 D2 : ℤ) (hd : d ≤ 255) (h1 : 0 ≤ D1) (h2 : 0 ≤ D2) :
    clampByte ((clampByte (d - D1) : ℤ) - D2) = clampByte (d - D1 - D2) := by
  unfold clampByte; omega

theorem floor_fract_add (a b : ℚ) : ⌊Int.fract a + b⌋ = ⌊a + b⌋ - ⌊a⌋ := by
  rw [show Int.fract a + b = (a + b) - (⌊a⌋ : ℚ) by rw [Int.fract]; ring, Int.floor_sub_int]

theorem fract_fract_add (a b : ℚ) : Int.fract (Int.fract a + b) = Int.fract (a + b) := by
  rw [show Int.fract (Int.fract a + b) =
      Int.fract a + b - ((⌊Int.fract a + b⌋ : ℤ) : ℚ) from rfl,
    floor_fract_add]
  simp only [Int.fract]
  push_cast
  ring

theorem chain_le_getLastD : ∀ (l : List ℚ) (a : ℚ),
    List.Chain (fun x y => x ≤ y) a l → a ≤ l.getLastD a := by
  intro l
  induction l with
  | nil => intro a _; exact le_rfl
  | cons b l2 ih =>
    intro a h
    rw [List.chain_cons] at h
    rw [List.getLastD_cons]
    exact h.1.trans (ih b h.2)

/-- C5: the 60 Hz timers do not drift: over any monotone sequence of tick
times, the total amount subtracted from the delay and sound counters is
`floor(remainder0 + 60 * total elapsed seconds)` -- it depends only on the
first and last wall-clock samples, not on how the interval was split into
cycles, because each tick carries its fractional remainder into the next
(`Int.fract` accumulation). -/
theorem c5_timers_no_drift (ts : List ℚ) (tm : Timers)
    (hr0 : 0 ≤ tm.last_tick_remainder) (hr1 : tm.last_tick_remainder < 1)
    (hchain : List.Chain (fun x y => x ≤ y) tm.last_tick ts)
    (hd : tm.delay ≤ 255) (hs : tm.sound ≤ 255) :
    Timers.tickSeq tm ts = some
      { delay := clampByte ((tm.delay : ℤ) - ⌊tm.last_tick_remainder +
          (ts.getLastD tm.last_tick - tm.last_tick) * 60⌋)
        sound := clampByte ((tm.sound : ℤ) - ⌊tm.last_tick_remainder +
          (ts.getLastD tm.last_tick - tm.last_tick) * 60⌋)
        last_tick := ts.getLastD tm.last_tick
        last_tick_remainder := Int.fract (tm.last_tick_remainder +
          (ts.getLastD tm.last_tick - tm.last_tick) * 60) } := by
  induction ts generalizing tm with
  | nil =>
    rw [Timers.tickSeq]
    simp only [List.getLastD_nil]
    rw [show tm.last_tick_remainder + (tm.last_tick - tm.last_tick) * 60 =
      tm.last_tick_remainder by ring]
    rw [Int.floor_eq_zero_iff.mpr ⟨hr0, hr1⟩, Int.fract_eq_self.mpr ⟨hr0, hr1⟩]
    have hcd : clampByte ((tm.delay : ℤ) - 0) = tm.delay := by unfold clampByte; omega
    have hcs : clampByte ((tm.sound : ℤ) - 0) = tm.sound := by unfold clampByte; omega
    rw [hcd, hcs]
  | cons t1 rest ih =>
    rw [List.chain_cons] at hchain
    rw [Timers.tickSeq, Timers.tick_of_le tm t1 hchain.1]
    show Timers.tickSeq (Timers.tickPure t1 tm) rest = _
    rw [ih (Timers.tickPure t1 tm) (Int.fract_nonneg _) (Int.fract_lt_one _)
      hchain.2 (clampByte_le _) (clampByte_le _)]
    rw [List.getLastD_cons]
    simp only [Timers.tickPure, Option.some.injEq, Timers.mk.injEq]
    have hT : t1 ≤ rest.getLastD t1 := chain_le_getLastD rest t1 hchain.2
    have hA0 : (0 : ℚ) ≤ tm.last_tick_remainder + (t1 - tm.last_tick) * 60 := by
      have h60 : (0 : ℚ) ≤ (t1 - tm.last_tick) * 60 := by nlinarith [hchain.1]
      linarith
    have hfl1 : (0 : ℤ) ≤ ⌊tm.last_tick_remainder + (t1 - tm.last_tick) * 60⌋ :=
      Int.floor_nonneg.mpr hA0
    have hkey : ∀ b : ℚ,
        tm.last_tick_remainder + (t1 - tm.last_tick) * 60 -
          ((⌊tm.last_tick_remainder + (t1 - tm.last_tick) * 60⌋ : ℤ) : ℚ) + b =
        Int.fract (tm.last_tick_remainder + (t1 - tm.last_tick) * 60) + b := by
      intro b
      rw [Int.self_sub_floor]
    have hAB : tm.last_tick_remainder + (t1 - tm.last_tick) * 60 +
        (rest.getLastD t1 - t1) * 60 =
        tm.last_tick_remainder + (rest.getLastD t1 - tm.last_tick) * 60 := by ring
    have hfl2 : (0 : ℤ) ≤ ⌊Int.fract (tm.last_tick_remainder + (t1 - tm.last_tick) * 60) +
        (rest.getLastD t1 - t1) * 60⌋ := by
      apply Int.floor_nonneg.mpr
      have h1 := Int.fract_nonneg (tm.last_tick_remainder + (t1 - tm.last_tick) * 60)
      have h2 : (0 : ℚ) ≤ (rest.getLastD t1 - t1) * 60 := by nlinarith
      linarith
    have hDD : ⌊Int.fract (tm.last_tick_remainder + (t1 - tm.last_tick) * 60) +
        (rest.getLastD t1 - t1) * 60⌋ =
        ⌊tm.last_tick_remainder + (rest.getLastD t1 - tm.last_tick) * 60⌋ -
        ⌊tm.last_tick_remainder + (t1 - tm.last_tick) * 60⌋ := by
      rw [floor_fract_add, hAB]
    refine ⟨?_, ?_, trivial, ?_⟩
    · rw [hkey, hDD]
      rw [clampByte_comp _ _ _ (by exact_mod_cast hd) hfl1 (by rw [← hDD]; exact hfl2)]
      congr 1
      ring
    · rw [hkey, hDD]
      rw [clampByte_comp _ _ _ (by exact_mod_cast hs) hfl1 (by rw [← hDD]; exact hfl2)]
      congr 1
      ring
    · rw [hkey, fract_fract_add, hAB]

theorem c5_timers_no_drift_witness :
    ((0 : ℚ) ≤ (0 : ℚ)) ∧ ((0 : ℚ) < 1) ∧
    List.Chain (fun x y => x ≤ y) (0 : ℚ) [17/20, 9/10, 154/125, 2] ∧
    ((120 : Nat) ≤ 255) ∧ ((240 : Nat) ≤ 255) ∧
    Timers.tickSeq ⟨120, 240, 0, 0⟩ [17/20, 9/10, 154/125, 2] =
      some ⟨0, 120, 2, 0⟩ := by
  have hchain : List.Chain (fun x y : ℚ => x ≤ y) (0 : ℚ) [17/20, 9/10, 154/125, 2] := by
    rw [List.chain_cons, List.chain_cons, List.chain_cons, List.chain_cons]
    refine ⟨by norm_num, by norm_num, by norm_num, by norm_num, List.Chain.nil⟩
  refine ⟨le_refl 0, by norm_num, hchain, by norm_num, by norm_num, ?_⟩
  rw [c5_timers_no_drift [17/20, 9/10, 154/125, 2] ⟨120, 240, 0, 0⟩
    (le_refl 0) (by norm_num) hchain (by norm_num) (by norm_num)]
  simp only [List.getLastD_cons, List.getLastD_nil, Option.some_inj, Timers.mk.injEq]
  norm_num [clampByte, Int.fract]
  decide

theorem spriteBit_zero_or_one (s j : Nat) : spriteBit s j = 0 ∨ spriteBit s j = 1 := by
  unfold spriteBit
  rw [Nat.and_one_is_mod]
  omega

theorem Machine.drawPixel_pixels (m : Machine) (px0 py0 : Nat) (i j : Nat) :
    (m.drawPixel px0 py0).display._pixels i j =
      if i = py0 ∧ j = px0 then !(m.display._pixels py0 px0) else m.display._pixels i j := by
  unfold Machine.drawPixel Display.pixel
  by_cases hp : m.display._pixels py0 px0 = true
  · rw [if_pos hp]
    show (m.display.set_pixel px0 py0 false)._pixels i j = _
    unfold Display.set_pixel Display.update_rgba_from_pixels
    rw [hp]
    rfl
  · rw [if_neg hp]
    show (m.display.set_pixel px0 py0 true)._pixels i j = _
    unfold Display.set_pixel Display.update_rgba_from_pixels
    rw [Bool.not_eq_true] at hp
    rw [hp]
    rfl

theorem Machine.drawRowAux_pixels (x row s : Nat) : ∀ (fuel j0 : Nat), 8 - j0 = fuel →
    ∀ (m : Machine) (px py : Nat),
    (Machine.drawRowAux x row s j0 m).display._pixels py px =
      if rowCond x s j0 px py row then !(m.display._pixels py px)
      else m.display._pixels py px := by
  intro fuel
  induction fuel with
  | zero =>
    intro j0 hj m px py
    rw [Machine.drawRowAux, if_pos (by omega)]
    rw [if_neg (by rintro ⟨-, c2, c3, c4, -, -⟩; omega)]
  | succ fuel ih =>
    intro j0 hj m px py
    rw [Machine.drawRowAux]
    by_cases h8 : 8 ≤ j0
    · rw [if_pos h8, if_neg (by rintro ⟨-, c2, c3, c4, -, -⟩; omega)]
    · rw [if_neg h8]
      by_cases hx : 64 ≤ x + j0
      · rw [if_pos hx, if_neg (by rintro ⟨-, c2, c3, c4, c5, -⟩; omega)]
      · rw [if_neg hx]
        rw [ih (j0 + 1) (by omega) _ px py]
        by_cases hbit : spriteBit s j0 = 0
        · rw [if_pos hbit]
          by_cases hc : rowCond x s (j0 + 1) px py row
          · rw [if_pos hc, if_pos (by
              obtain ⟨c1, c2, c3, c4, c5, c6⟩ := hc
              exact ⟨c1, c2, c3, by omega, c5, c6⟩)]
          · rw [if_neg hc, if_neg (by
              rintro ⟨c1, c2, c3, c4, c5, c6⟩
              apply hc
              refine ⟨c1, c2, c3, ?_, c5, c6⟩
              have hne : px - x ≠ j0 := by
                intro he
                rw [he, hbit] at c6
                exact absurd c6 (by norm_num)
              omega)]
        · rw [if_neg hbit]
          have hbit1 : spriteBit s j0 = 1 :=
            (spriteBit_zero_or_one s j0).resolve_left hbit
          rw [Machine.drawPixel_pixels]
          by_cases hthis : py = row ∧ px = x + j0
          · rw [if_pos hthis]
            rw [if_neg (by
              rintro ⟨-, c2, -, c4, -, -⟩
              obtain ⟨-, h2⟩ := hthis
              omega)]
            rw [if_pos (by
              obtain ⟨h1, h2⟩ := hthis
              subst h1; subst h2
              exact ⟨rfl, by omega, by omega, by omega, by omega,
                by rw [show x + j0 - x = j0 by omega]; exact hbit1⟩)]
            obtain ⟨h1, h2⟩ := hthis
            subst h1; subst h2
            rfl
          · rw [if_neg hthis]
            by_cases hc : rowCond x s (j0 + 1) px py row
            · rw [if_pos hc, if_pos (by
                obtain ⟨c1, c2, c3, c4, c5, c6⟩ := hc
                exact ⟨c1, c2, c3, by omega, c5, c6⟩)]
            · rw [if_neg hc, if_neg (by
                rintro ⟨c1, c2, c3, c4, c5, c6⟩
                apply hc
                refine ⟨c1, c2, c3, ?_, c5, c6⟩
                have hne : px ≠ x + j0 := fun he => hthis ⟨c1, he⟩
                omega)]

theorem Machine.drawPixel_collide_iff (m : Machine) (x row s j0 j1 : Nat) (hj : j0 < j1) :
    RowCollide (m.drawPixel (x + j0) row) x row s j1 ↔ RowCollide m x row s j1 := by
  unfold RowCollide
  constructor
  · rintro ⟨j, h1, h2, h3, h4, h5⟩
    refine ⟨j, h1, h2, h3, h4, ?_⟩
    rw [Machine.drawPixel_pixels, if_neg (by rintro ⟨-, he⟩; omega)] at h5
    exact h5
  · rintro ⟨j, h1, h2, h3, h4, h5⟩
    refine ⟨j, h1, h2, h3, h4, ?_⟩
    rw [Machine.drawPixel_pixels, if_neg (by rintro ⟨-, he⟩; omega)]
    exact h5

theorem Machine.drawRowAux_flag (x row s : Nat) : ∀ (fuel j0 : Nat), 8 - j0 = fuel →
    ∀ m : Machine,
    (RowCollide m x row s j0 → (Machine.drawRowAux x row s j0 m).registers 15 = 1) ∧
    (¬ RowCollide m x row s j0 →
      (Machine.drawRowAux x row s j0 m).registers 15 = m.registers 15) := by
  intro fuel
  induction fuel with
  | zero =>
    intro j0 hj m
    rw [Machine.drawRowAux, if_pos (by omega)]
    exact ⟨fun hcol => absurd hcol (by rintro ⟨j, h1, h2, -, -, -⟩; omega), fun _ => rfl⟩
  | succ fuel ih =>
    intro j0 hj m
    rw [Machine.drawRowAux]
    by_cases h8 : 8 ≤ j0
    · rw [if_pos h8]
      exact ⟨fun hcol => absurd hcol (by rintro ⟨j, h1, h2, -, -, -⟩; omega), fun _ => rfl⟩
    · rw [if_neg h8]
      by_cases hx : 64 ≤ x + j0
      · rw [if_pos hx]
        exact ⟨fun hcol => absurd hcol (by rintro ⟨j, h1, -, h3, -, -⟩; omega), fun _ => rfl⟩
      · rw [if_neg hx]
        by_cases hbit : spriteBit s j0 = 0
        · rw [if_pos hbit]
          have hiff : RowCollide m x row s j0 ↔ RowCollide m x row s (j0 + 1) := by
            constructor
            · rintro ⟨j, h1, h2, h3, h4, h5⟩
              refine ⟨j, ?_, h2, h3, h4, h5⟩
              have : j ≠ j0 := fun he => by rw [he, hbit] at h4; exact absurd h4 (by norm_num)
              omega
            · rintro ⟨j, h1, h2, h3, h4, h5⟩
              exact ⟨j, by omega, h2, h3, h4, h5⟩
          obtain ⟨ih1, ih2⟩ := ih (j0 + 1) (by omega) m
          exact ⟨fun hcol => ih1 (hiff.mp hcol), fun hcol => ih2 (fun hc => hcol (hiff.mpr hc))⟩
        · rw [if_neg hbit]
          have hbit1 : spriteBit s j0 = 1 :=
            (spriteBit_zero_or_one s j0).resolve_left hbit
          obtain ⟨ih1, ih2⟩ := ih (j0 + 1) (by omega) (m.drawPixel (x + j0) row)
          by_cases hpix : m.display._pixels row (x + j0) = true
          · have hreg1 : (m.drawPixel (x + j0) row).registers 15 = 1 := by
              rw [Machine.drawPixel_registers,
                if_pos ⟨rfl, by unfold Display.pixel; exact hpix⟩]
            have hres : (Machine.drawRowAux x row s (j0 + 1)
                (m.drawPixel (x + j0) row)).registers 15 = 1 := by
              by_cases hc : RowCollide (m.drawPixel (x + j0) row) x row s (j0 + 1)
              · exact ih1 hc
              · rw [ih2 hc, hreg1]
            exact ⟨fun _ => hres, fun hcol =>
              absurd ⟨j0, le_rfl, by omega, by omega, hbit1, hpix⟩ hcol⟩
          · have hreg0 : (m.drawPixel (x + j0) row).registers 15 = m.registers 15 := by
              rw [Machine.drawPixel_registers,
                if_neg (by rintro ⟨-, hp⟩; exact hpix (by unfold Display.pixel at hp; exact hp))]
            have hiff : RowCollide m x row s j0 ↔ RowCollide m x row s (j0 + 1) := by
              constructor
              · rintro ⟨j, h1, h2, h3, h4, h5⟩
                refine ⟨j, ?_, h2, h3, h4, h5⟩
                have hne : j ≠ j0 := by
                  intro he
                  subst he
                  exact hpix h5
                omega
              · rintro ⟨j, h1, h2, h3, h4, h5⟩
                exact ⟨j, by omega, h2, h3, h4, h5⟩
            have htrans := Machine.drawPixel_collide_iff m x row s j0 (j0 + 1) (by omega)
            constructor
            · intro hcol
              exact ih1 (htrans.mpr (hiff.mp hcol))
            · intro hcol
              rw [ih2 (fun hc => hcol (hiff.mpr (htrans.mp hc))), hreg0]

theorem Machine.drawRows_some (x y n I : Nat) : ∀ (fuel i0 : Nat), n - i0 = fuel →
    ∀ m : Machine, I + n ≤ 4096 →
    ∃ m2, Machine.drawRows x y n I i0 m = some m2 := by
  intro fuel
  induction fuel with
  | zero =>
    intro i0 hi m hI
    rw [Machine.drawRows, if_pos (by omega)]
    exact ⟨m, rfl⟩
  | succ fuel ih =>
    intro i0 hi m hI
    rw [Machine.drawRows]
    by_cases hn : n ≤ i0
    · rw [if_pos hn]; exact ⟨m, rfl⟩
    · rw [if_neg hn]
      by_cases hy : 32 ≤ y + i0
      · rw [if_pos hy]; exact ⟨m, rfl⟩
      · rw [if_neg hy]
        unfold Machine.readRam
        rw [if_pos (by omega)]
        exact ih (i0 + 1) (by omega) _ hI

theorem Machine.drawRows_pixels (x y n I : Nat) : ∀ (fuel i0 : Nat), n - i0 = fuel →
    ∀ (m m2 : Machine), Machine.drawRows x y n I i0 m = some m2 →
    ∀ px py,
    m2.display._pixels py px =
      if drawsCond m.ram x y n I i0 px py then !(m.display._pixels py px)
      else m.display._pixels py px := by
  intro fuel
  induction fuel with
  | zero =>
    intro i0 hi m m2 hE px py
    rw [Machine.drawRows, if_pos (by omega)] at hE
    obtain rfl : m = m2 := by injection hE
    rw [if_neg (by rintro ⟨-, c2, c3, -, -, -, -, -⟩; omega)]
  | succ fuel ih =>
    intro i0 hi m m2 hE px py
    rw [Machine.drawRows] at hE
    by_cases hn : n ≤ i0
    · rw [if_pos hn] at hE
      obtain rfl : m = m2 := by injection hE
      rw [if_neg (by rintro ⟨-, c2, c3, -, -, -, -, -⟩; omega)]
    · rw [if_neg hn] at hE
      by_cases hy : 32 ≤ y + i0
      · rw [if_pos hy] at hE
        obtain rfl : m = m2 := by injection hE
        rw [if_neg (by rintro ⟨c1, c2, -, c4, -, -, -, -⟩; omega)]
      · rw [if_neg hy] at hE
        unfold Machine.readRam at hE
        rw [if_pos (by
          by_contra hcon
          rw [if_neg hcon] at hE
          exact absurd hE (by simp))] at hE
        rw [ih (i0 + 1) (by omega) _ m2 hE px py]
        have hram : (Machine.drawRowAux x (y + i0) (m.ram (I + i0)) 0 m).ram = m.ram :=
          (Machine.drawRowAux_frame x (y + i0) (m.ram (I + i0)) 8 0 rfl m).1
        rw [hram]
        rw [Machine.drawRowAux_pixels x (y + i0) (m.ram (I + i0)) 8 0 rfl m px py]
        by_cases hrow : py = y + i0
        · rw [if_neg (by rintro ⟨-, c2, c3, -, -, -, -, -⟩; omega)]
          by_cases hcol : x ≤ px ∧ px < x + 8 ∧ px < 64 ∧
              spriteBit (m.ram (I + i0)) (px - x) = 1
          · rw [if_pos ⟨hrow, hcol.1, hcol.2.1, by omega, hcol.2.2.1, hcol.2.2.2⟩]
            rw [if_pos ⟨by omega, by omega, by omega, by omega, hcol.1, hcol.2.1,
              hcol.2.2.1, by rw [show py - y = i0 by omega]; exact hcol.2.2.2⟩]
          · rw [if_neg (by
              rintro ⟨-, c2, c3, -, c5, c6⟩
              exact hcol ⟨c2, c3, c5, c6⟩)]
            rw [if_neg (by
              rintro ⟨c1, c2, c3, c4, c5, c6, c7, c8⟩
              rw [show py - y = i0 by omega] at c8
              exact hcol ⟨c5, c6, c7, c8⟩)]
        · have hrc : ¬ rowCond x (m.ram (I + i0)) 0 px py (y + i0) := by
            rintro ⟨c1, -, -, -, -, -⟩
            exact hrow c1
          rw [if_neg hrc]
          by_cases hc : drawsCond m.ram x y n I (i0 + 1) px py
          · rw [if_pos hc, if_pos ⟨hc.1, by omega, hc.2.2.1, hc.2.2.2.1,
              hc.2.2.2.2.1, hc.2.2.2.2.2.1, hc.2.2.2.2.2.2.1, hc.2.2.2.2.2.2.2⟩]
          · rw [if_neg hc, if_neg (by
              rintro ⟨c1, c2, c3, c4, c5, c6, c7, c8⟩
              exact hc ⟨c1, by omega, c3, c4, c5, c6, c7, c8⟩)]

theorem Machine.drawRows_flag (x y n I : Nat) : ∀ (fuel i0 : Nat), n - i0 = fuel →
    ∀ (m m2 : Machine), Machine.drawRows x y n I i0 m = some m2 →
    (DrawCollide m x y n I i0 → m2.registers 15 = 1) ∧
    (¬ DrawCollide m x y n I i0 → m2.registers 15 = m.registers 15) := by
  intro fuel
  induction fuel with
  | zero =>
    intro i0 hi m m2 hE
    rw [Machine.drawRows, if_pos (by omega)] at hE
    obtain rfl : m = m2 := by injection hE
    exact ⟨fun hcol => absurd hcol (by rintro ⟨i, h1, h2, -, -⟩; omega), fun _ => rfl⟩
  | succ fuel ih =>
    intro i0 hi m m2 hE
    rw [Machine.drawRows] at hE
    by_cases hn : n ≤ i0
    · rw [if_pos hn] at hE
      obtain rfl : m = m2 := by injection hE
      exact ⟨fun hcol => absurd hcol (by rintro ⟨i, h1, h2, -, -⟩; omega), fun _ => rfl⟩
    · rw [if_neg hn] at hE
      by_cases hy : 32 ≤ y + i0
      · rw [if_pos hy] at hE
        obtain rfl : m = m2 := by injection hE
        exact ⟨fun hcol => absurd hcol (by rintro ⟨i, h1, -, h3, -⟩; omega), fun _ => rfl⟩
      · rw [if_neg hy] at hE
        unfold Machine.readRam at hE
        rw [if_pos (by
          by_contra hcon
          rw [if_neg hcon] at hE
          exact absurd hE (by simp))] at hE
        obtain ⟨ih1, ih2⟩ := ih (i0 + 1) (by omega) _ m2 hE
        have hram : (Machine.drawRowAux x (y + i0) (m.ram (I + i0)) 0 m).ram = m.ram :=
          (Machine.drawRowAux_frame x (y + i0) (m.ram (I + i0)) 8 0 rfl m).1
        have hpixframe : ∀ i j, i0 + 1 ≤ i →
            (Machine.drawRowAux x (y + i0) (m.ram (I + i0)) 0 m).display._pixels
              (y + i) (x + j) = m.display._pixels (y + i) (x + j) := by
          intro i j hii
          rw [Machine.drawRowAux_pixels x (y + i0) (m.ram (I + i0)) 8 0 rfl m (x + j) (y + i),
            if_neg (by rintro ⟨c1, -, -, -, -, -⟩; omega)]
        have hDC : DrawCollide (Machine.drawRowAux x (y + i0) (m.ram (I + i0)) 0 m)
            x y n I (i0 + 1) ↔ DrawCollide m x y n I (i0 + 1) := by
          unfold DrawCollide
          constructor
          · rintro ⟨i, h1, h2, h3, j, h4, h5, h6, h7⟩
            rw [hram] at h6
            rw [hpixframe i j h1] at h7
            exact ⟨i, h1, h2, h3, j, h4, h5, h6, h7⟩
          · rintro ⟨i, h1, h2, h3, j, h4, h5, h6, h7⟩
            rw [← hram] at h6
            rw [← hpixframe i j h1] at h7
            exact ⟨i, h1, h2, h3, j, h4, h5, h6, h7⟩
        obtain ⟨f1, f2⟩ := Machine.drawRowAux_flag x (y + i0) (m.ram (I + i0)) 8 0 rfl m
        by_cases hrc : RowCollide m x (y + i0) (m.ram (I + i0)) 0
        · have hm1 : (Machine.drawRowAux x (y + i0) (m.ram (I + i0)) 0 m).registers 15 = 1 :=
            f1 hrc
          have hres : m2.registers 15 = 1 := by
            by_cases hd : DrawCollide (Machine.drawRowAux x (y + i0) (m.ram (I + i0)) 0 m)
                x y n I (i0 + 1)
            · exact ih1 hd
            · rw [ih2 hd, hm1]
          refine ⟨fun _ => hres, fun hnc => ?_⟩
          obtain ⟨j, hj0, hj8, hjx, hjb, hjp⟩ := hrc
          exact absurd ⟨i0, le_rfl, by omega, by omega, j, hj8, hjx, hjb, hjp⟩ hnc
        · have hm1 : (Machine.drawRowAux x (y + i0) (m.ram (I + i0)) 0 m).registers 15 =
              m.registers 15 := f2 hrc
          have hiff : DrawCollide m x y n I i0 ↔ DrawCollide m x y n I (i0 + 1) := by
            constructor
            · rintro ⟨i, h1, h2, h3, j, h4, h5, h6, h7⟩
              have hne : i ≠ i0 := by
                intro he
                subst he
                exact hrc ⟨j, by omega, h4, h5, h6, h7⟩
              exact ⟨i, by omega, h2, h3, j, h4, h5, h6, h7⟩
            · rintro ⟨i, h1, h2, h3, j, h4, h5, h6, h7⟩
              exact ⟨i, by omega, h2, h3, j, h4, h5, h6, h7⟩
          refine ⟨fun hcol => ih1 (hDC.mpr (hiff.mp hcol)), fun hncol => ?_⟩
          rw [ih2 (fun hd => hncol (hiff.mpr (hDC.mp hd))), hm1]

/-- C3: the DXYN draw instruction XORs an n-row sprite read from
`ram[I..I+n)` onto the display at (VX mod 64, VY mod 32), clipping rows
that fall below row 31 and columns past column 63 (no wrap-around), and
sets VF to 1 exactly when some drawn sprite bit erases a lit pixel,
resetting it to 0 first. -/
theorem c3_draw_sprite (m : Machine) (t : ℚ) (r : Nat) (rx ry n : Nat)
    (hpc : m.program_counter + 1 < 4096)
    (htick : m.timers.last_tick ≤ t)
    (hdec : decode ((m.ram m.program_counter <<< 8) ||| m.ram (m.program_counter + 1)) =
      .Display rx ry n)
    (hI : m.index_register + n ≤ 4096) :
    ∃ m', m.execute_one t r = some m' ∧
      (∀ px py,
        m'.display._pixels py px =
          if drawsCond m.ram (m.registers rx % 64) (m.registers ry % 32) n
              m.index_register 0 px py
          then !(m.display._pixels py px) else m.display._pixels py px) ∧
      (DrawCollide m (m.registers rx % 64) (m.registers ry % 32) n m.index_register 0 →
        m'.registers 15 = 1) ∧
      (¬ DrawCollide m (m.registers rx % 64) (m.registers ry % 32) n m.index_register 0 →
        m'.registers 15 = 0) := by
  obtain ⟨m2, hdraw⟩ := Machine.drawRows_some (m.registers rx % 64) (m.registers ry % 32) n
    m.index_register n 0 rfl
    (({ m with program_counter := m.program_counter + 2 } : Machine).set_flag_register 0) hI
  have hfr := Machine.drawRows_frame (m.registers rx % 64) (m.registers ry % 32) n
    m.index_register n 0 rfl
    (({ m with program_counter := m.program_counter + 2 } : Machine).set_flag_register 0)
    m2 hdraw
  have htick2 : m2.timers.last_tick ≤ t := by
    rw [hfr.2.2.2.2.2.2.1]
    exact htick
  have hrun := Machine.execute_one_run m t r m2 hpc (by rw [hdec]; exact hdraw) htick2
  have hpixels := Machine.drawRows_pixels (m.registers rx % 64) (m.registers ry % 32) n
    m.index_register n 0 rfl
    (({ m with program_counter := m.program_counter + 2 } : Machine).set_flag_register 0)
    m2 hdraw
  have hflag := Machine.drawRows_flag (m.registers rx % 64) (m.registers ry % 32) n
    m.index_register n 0 rfl
    (({ m with program_counter := m.program_counter + 2 } : Machine).set_flag_register 0)
    m2 hdraw
  refine ⟨_, hrun, ?_, ?_, ?_⟩
  · intro px py
    exact hpixels px py
  · intro hcol
    exact hflag.1 hcol
  · intro hncol
    exact hflag.2 hncol

theorem c3_draw_sprite_witness :
    drawMachine.program_counter + 1 < 4096 ∧
    drawMachine.timers.last_tick ≤ (0 : ℚ) ∧
    decode ((drawMachine.ram drawMachine.program_counter <<< 8) |||
      drawMachine.ram (drawMachine.program_counter + 1)) = .Display 1 2 3 ∧
    drawMachine.index_register + 3 ≤ 4096 ∧
    ∃ m', drawMachine.execute_one 0 0 = some m' ∧
      (∀ px py,
        m'.display._pixels py px =
          if drawsCond drawMachine.ram (drawMachine.registers 1 % 64)
              (drawMachine.registers 2 % 32) 3 drawMachine.index_register 0 px py
          then !(drawMachine.display._pixels py px)
          else drawMachine.display._pixels py px) ∧
      (DrawCollide drawMachine (drawMachine.registers 1 % 64)
          (drawMachine.registers 2 % 32) 3 drawMachine.index_register 0 →
        m'.registers 15 = 1) ∧
      (¬ DrawCollide drawMachine (drawMachine.registers 1 % 64)
          (drawMachine.registers 2 % 32) 3 drawMachine.index_register 0 →
        m'.registers 15 = 0) :=
  ⟨by decide, le_refl 0, by decide, by decide,
    c3_draw_sprite drawMachine 0 0 1 2 3 (by decide) (le_refl 0) (by decide) (by decide)⟩

theorem decode_wf (w : Nat) : InstrWF (decode w) := by
  have hnnn : Word.nnn w < 4096 := Nat.lt_succ_of_le Nat.and_le_right
  have hnn : Word.nn w < 256 := Nat.lt_succ_of_le Nat.and_le_right
  unfold decode
  by_cases h1 : w = 0
  · rw [if_pos h1]; trivial
  · rw [if_neg h1]
    by_cases h2 : w = 0x00E0
    · rw [if_pos h2]; trivial
    · rw [if_neg h2]
      by_cases h3 : w = 0x00EE
      · rw [if_pos h3]; trivial
      · rw [if_neg h3]
        by_cases h4 : Word.category w = 1
        · rw [if_pos h4]; exact hnnn
        · rw [if_neg h4]
          by_cases h5 : Word.category w = 2
          · rw [if_pos h5]; exact hnnn
          · rw [if_neg h5]
            by_cases h6 : Word.category w = 3
            · rw [if_pos h6]; trivial
            · rw [if_neg h6]
              by_cases h7 : Word.category w = 4
              · rw [if_pos h7]; trivial
              · rw [if_neg h7]
                by_cases h8 : Word.category w = 5
                · rw [if_pos h8]; trivial
                · rw [if_neg h8]
                  by_cases h9 : Word.category w = 6
                  · rw [if_pos h9]; exact hnn
                  · rw [if_neg h9]
                    by_cases h10 : Word.category w = 7
                    · rw [if_pos h10]; trivial
                    · rw [if_neg h10]
                      by_cases h11 : Word.category w = 8 ∧ Word.n w = 0
                      · rw [if_pos h11]; trivial
                      · rw [if_neg h11]
                        by_cases h12 : Word.category w = 8 ∧ Word.n w = 1
                        · rw [if_pos h12]; trivial
                        · rw [if_neg h12]
                          by_cases h13 : Word.category w = 8 ∧ Word.n w = 2
                          · rw [if_pos h13]; trivial
                          · rw [if_neg h13]
                            by_cases h14 : Word.category w = 8 ∧ Word.n w = 3
                            · rw [if_pos h14]; trivial
                            · rw [if_neg h14]
                              by_cases h15 : Word.category w = 8 ∧ Word.n w = 4
                              · rw [if_pos h15]; trivial
                              · rw [if_neg h15]
                                by_cases h16 : Word.category w = 8 ∧ Word.n w = 5
                                · rw [if_pos h16]; trivial
                                · rw [if_neg h16]
                                  by_cases h17 : Word.category w = 8 ∧ Word.n w = 6
                                  · rw [if_pos h17]; trivial
                                  · rw [if_neg h17]
                                    by_cases h18 : Word.category w = 8 ∧ Word.n w = 7
                                    · rw [if_pos h18]; trivial
                                    · rw [if_neg h18]
                                      by_cases h19 : Word.category w = 8 ∧ Word.n w = 0xE
                                      · rw [if_pos h19]; trivial
                                      · rw [if_neg h19]
                                        by_cases h20 : Word.category w = 9
                                        · rw [if_pos h20]; trivial
                                        · rw [if_neg h20]
                                          by_cases h21 : Word.category w = 0xA
                                          · rw [if_pos h21]; trivial
                                          · rw [if_neg h21]
                                            by_cases h22 : Word.category w = 0xB
                                            · rw [if_pos h22]; exact hnnn
                                            · rw [if_neg h22]
                                              by_cases h23 : Word.category w = 0xC
                                              · rw [if_pos h23]; trivial
                                              · rw [if_neg h23]
                                                by_cases h24 : Word.category w = 0xD
                                                · rw [if_pos h24]; trivial
                                                · rw [if_neg h24]
                                                  by_cases h25 : Word.category w = 0xE ∧ Word.nn w = 0x9E
                                                  · rw [if_pos h25]; trivial
                                                  · rw [if_neg h25]
                                                    by_cases h26 : Word.category w = 0xE ∧ Word.nn w = 0xA1
                                                    · rw [if_pos h26]; trivial
                                                    · rw [if_neg h26]
                                                      by_cases h27 : Word.category w = 0xF ∧ Word.nn w = 0x07
                                                      · rw [if_pos h27]; trivial
                                                      · rw [if_neg h27]
                                                        by_cases h28 : Word.category w = 0xF ∧ Word.nn w = 0x15
                                                        · rw [if_pos h28]; trivial
                                                        · rw [if_neg h28]
                                                          by_cases h29 : Word.category w = 0xF ∧ Word.nn w = 0x18
                                                          · rw [if_pos h29]; trivial
                                                          · rw [if_neg h29]
                                                            by_cases h30 : Word.category w = 0xF ∧ Word.nn w = 0x1E
                                                            · rw [if_pos h30]; trivial
                                                            · rw [if_neg h30]
                                                              by_cases h31 : Word.category w = 0xF ∧ Word.nn w = 0x0A
                                                              · rw [if_pos h31]; trivial
                                                              · rw [if_neg h31]
                                                                by_cases h32 : Word.category w = 0xF ∧ Word.nn w = 0x29
                                                                · rw [if_pos h32]; trivial
                                                                · rw [if_neg h32]
                                                                  by_cases h33 : Word.category w = 0xF ∧ Word.nn w = 0x33
                                                                  · rw [if_pos h33]; trivial
                                                                  · rw [if_neg h33]
                                                                    by_cases h34 : Word.category w = 0xF ∧ Word.nn w = 0x55
                                                                    · rw [if_pos h34]; trivial
                                                                    · rw [if_neg h34]
                                                                      by_cases h35 : Word.category w = 0xF ∧ Word.nn w = 0x65
                                                                      · rw [if_pos h35]; trivial
                                                                      · rw [if_neg h35]
                                                                        trivial

theorem getD_lt_256 (data : List Nat) (h : ∀ v ∈ data, v < 256) :
    ∀ k, data.getD k 0 < 256 := by
  induction data with
  | nil => intro k; simp [List.getD]
  | cons v rest ih =>
    intro k
    cases k with
    | zero => exact h v (by simp)
    | succ k =>
      rw [List.getD_cons_succ]
      exact ih (fun u hu => h u (by simp [hu])) k

theorem Machine.default_ram_lt (t0 : ℚ) : ∀ a, (Machine.default t0).ram a < 256 := by
  intro a
  show (if 0x50 ≤ a ∧ a < 0x50 + 80 then FONT.getD (a - 0x50) 0 else 0) < 256
  split
  · exact getD_lt_256 FONT (by decide) _
  · norm_num

theorem or_lt_256 (a b : Nat) (ha : a < 256) (hb : b < 256) : a ||| b < 256 :=
  @Nat.or_lt_two_pow a b 8 ha hb

theorem xor_lt_256 (a b : Nat) (ha : a < 256) (hb : b < 256) : a ^^^ b < 256 :=
  @Nat.xor_lt_two_pow a b 8 ha hb

theorem Machine.setReg_reg_lt (m : Machine) (rx v : Nat) (hv : v < 256)
    (hreg : ∀ i, m.registers i < 256) : ∀ i, (m.setReg rx v).registers i < 256 := by
  intro i
  rw [Machine.setReg_registers]
  split
  · exact hv
  · exact hreg i

theorem Machine.push_stack_stack_le (m : Machine) (v : Nat) (m2 : Machine)
    (hE : m.push_stack v = some m2) (hstack : ∀ i, m.stack i ≤ 4096) (hv : v ≤ 4096) :
    ∀ i, m2.stack i ≤ 4096 := by
  unfold Machine.push_stack at hE
  by_cases h100 : m.stack_index > 100 <;>
    simp only [h100, if_true, if_false] at hE <;> split at hE <;>
      first
        | (obtain rfl := (Option.some_inj.mp hE).symm
           intro i
           show (if i = _ then v else m.stack i) ≤ 4096
           split
           · exact hv
           · exact hstack i)
        | exact absurd hE (by simp)

theorem Machine.pop_stack_val_le (m : Machine) (v : Nat) (m2 : Machine)
    (hE : m.pop_stack = some (v, m2)) (hstack : ∀ i, m.stack i ≤ 4096) :
    v ≤ 4096 := by
  unfold Machine.pop_stack at hE
  by_cases h1 : m.stack_index < 1 <;>
    simp only [h1, if_true, if_false] at hE <;> split at hE <;>
      first
        | (obtain ⟨rfl, rfl⟩ := Prod.mk.injEq .. ▸ (Option.some_inj.mp hE).symm
           exact hstack _)
        | exact absurd hE (by simp)

theorem Machine.writeRam_ram_lt (m : Machine) (a v : Nat) (m2 : Machine)
    (hE : m.writeRam a v = some m2) (hram : ∀ x, m.ram x < 256) (hv : v < 256) :
    ∀ x, m2.ram x < 256 := by
  unfold Machine.writeRam at hE
  split at hE
  · obtain rfl := (Option.some_inj.mp hE).symm
    intro x
    show (if x = a then v else m.ram x) < 256
    split
    · exact hv
    · exact hram x
  · exact absurd hE (by simp)

theorem Machine.storeRegs_ram_lt (vx : Nat) : ∀ (fuel i : Nat), vx + 1 - i = fuel →
    ∀ (m m2 : Machine), Machine.storeRegs vx i m = some m2 →
    (∀ x, m.ram x < 256) → (∀ j, m.registers j < 256) → ∀ x, m2.ram x < 256 := by
  intro fuel
  induction fuel with
  | zero =>
    intro i hi m m2 hE hram hreg
    rw [Machine.storeRegs, if_neg (by omega)] at hE
    obtain rfl : m = m2 := by injection hE
    exact hram
  | succ n ih =>
    intro i hi m m2 hE hram hreg
    rw [Machine.storeRegs] at hE
    by_cases hlt : i < vx + 1
    · rw [if_pos hlt] at hE
      split at hE
      · exact absurd hE (by simp)
      · rename_i m1 hw
        obtain ⟨-, -, -, -, -, g6, -, -⟩ := Machine.writeRam_frame _ _ _ _ hw
        exact ih (i + 1) (by omega) _ m2 hE
          (Machine.writeRam_ram_lt _ _ _ _ hw hram (hreg i))
          (fun j => by rw [g6]; exact hreg j)
    · rw [if_neg hlt] at hE
      obtain rfl : m = m2 := by injection hE
      exact hram

theorem Machine.loadRegs_reg_lt (vx : Nat) : ∀ (fuel i : Nat), vx + 1 - i = fuel →
    ∀ (m m2 : Machine), Machine.loadRegs vx i m = some m2 →
    (∀ x, m.ram x < 256) → (∀ j, m.registers j < 256) → ∀ j, m2.registers j < 256 := by
  intro fuel
  induction fuel with
  | zero =>
    intro i hi m m2 hE hram hreg
    rw [Machine.loadRegs, if_neg (by omega)] at hE
    obtain rfl : m = m2 := by injection hE
    exact hreg
  | succ n ih =>
    intro i hi m m2 hE hram hreg
    rw [Machine.loadRegs] at hE
    by_cases hlt : i < vx + 1
    · rw [if_pos hlt] at hE
      rcases hR : m.readRam (m.index_register + i) with - | v
      · rw [hR] at hE
        exact absurd hE (by simp)
      · rw [hR] at hE
        have hv : v < 256 := by
          unfold Machine.readRam at hR
          split at hR
          · obtain rfl := Option.some_inj.mp hR
            exact hram _
          · exact absurd hR (by simp)
        exact ih (i + 1) (by omega) _ m2 hE (fun x => hram x)
          (Machine.setReg_reg_lt m i v hv hreg)
    · rw [if_neg hlt] at hE
      obtain rfl : m = m2 := by injection hE
      exact hreg

theorem Machine.findKey_lt (m : Machine) (k : Nat) (h : m.findKey = some k) : k < 16 := by
  unfold Machine.findKey at h
  exact List.mem_range.mp (List.mem_of_find?_eq_some h)

theorem Machine.execInstr_inv (m : Machine) (instr : Instruction) (r : Nat) (m2 : Machine)
    (hwf : InstrWF instr) (hpc : m.program_counter ≤ 4096)
    (hstack : ∀ i, m.stack i ≤ 4096) (hreg : ∀ i, m.registers i < 256)
    (hram : ∀ a, m.ram a < 256) (hdelay : m.timers.delay ≤ 255)
    (hE : m.execInstr instr r = some m2) :
    m2.program_counter ≤ 4350 ∧ (∀ i, m2.stack i ≤ 4096) ∧ (∀ i, m2.registers i < 256) ∧
    (∀ a, m2.ram a < 256) ∧ m2.timers.delay ≤ 255 := by
  have hpc4350 : m.program_counter ≤ 4350 := by omega
  cases instr with
  | Zero =>
    obtain rfl := (Option.some_inj.mp hE).symm
    exact ⟨hpc4350, hstack, hreg, hram, hdelay⟩
  | ClearScreen =>
    obtain rfl := (Option.some_inj.mp hE).symm
    exact ⟨hpc4350, hstack, hreg, hram, hdelay⟩
  | Jump v =>
    have hv : v < 4096 := hwf
    obtain rfl := (Option.some_inj.mp hE).symm
    exact ⟨(by omega : v ≤ 4350), hstack, hreg, hram, hdelay⟩
  | SetRegToVal reg val =>
    have hv : val < 256 := hwf
    obtain rfl := (Option.some_inj.mp hE).symm
    exact ⟨hpc4350, hstack, Machine.setReg_reg_lt m reg val hv hreg, hram, hdelay⟩
  | AddValToReg reg val =>
    obtain rfl := (Option.some_inj.mp hE).symm
    exact ⟨hpc4350, hstack,
      Machine.setReg_reg_lt m reg _ (Nat.mod_lt _ (by norm_num)) hreg, hram, hdelay⟩
  | SetIndexRegister val =>
    obtain rfl := (Option.some_inj.mp hE).symm
    exact ⟨hpc4350, hstack, hreg, hram, hdelay⟩
  | Display rx ry nr =>
    obtain ⟨g1, g2, g3, -, -, -, g7, g8, g9⟩ :=
      Machine.drawRows_frame (m.registers rx % 64) (m.registers ry % 32) nr
        m.index_register nr 0 rfl (m.set_flag_register 0) m2 hE
    refine ⟨?_, ?_, ?_, ?_, ?_⟩
    · rw [g2]; exact hpc4350
    · intro i; rw [g3]; exact hstack i
    · intro i
      by_cases hi : i = 15
      · subst hi
        rcases g9 with h | h
        · rw [h, Machine.set_flag_register_registers]
          norm_num
        · rw [h]; norm_num
      · rw [g8 i hi, Machine.set_flag_register_registers, if_neg hi]
        exact hreg i
    · intro a; rw [g1]; exact hram a
    · rw [g7]; exact hdelay
  | Subroutine v =>
    have hv : v < 4096 := hwf
    simp only [Machine.execInstr] at hE
    split at hE
    · exact absurd hE (by simp)
    · rename_i m1 hpush
      obtain rfl := (Option.some_inj.mp hE).symm
      obtain ⟨-, g2, g3, -, g5, -, g7⟩ := Machine.push_stack_frame m _ m1 hpush
      refine ⟨(by omega : v ≤ 4350), ?_, ?_, ?_, ?_⟩
      · exact Machine.push_stack_stack_le m _ m1 hpush hstack (by omega)
      · intro i; show m1.registers i < 256; rw [g5]; exact hreg i
      · intro a; show m1.ram a < 256; rw [g2]; exact hram a
      · show m1.timers.delay ≤ 255; rw [g7]; exact hdelay
  | Return =>
    simp only [Machine.execInstr] at hE
    split at hE
    · exact absurd hE (by simp)
    · rename_i v1 m1 hpop
      obtain rfl := (Option.some_inj.mp hE).symm
      obtain ⟨-, g2, g3, -, g5, -, g7, g8⟩ := Machine.pop_stack_frame m v1 m1 hpop
      have hv1 := Machine.pop_stack_val_le m v1 m1 hpop hstack
      refine ⟨(by omega : v1 ≤ 4350), ?_, ?_, ?_, ?_⟩
      · intro i; show m1.stack i ≤ 4096; rw [g8]; exact hstack i
      · intro i; show m1.registers i < 256; rw [g5]; exact hreg i
      · intro a; show m1.ram a < 256; rw [g2]; exact hram a
      · show m1.timers.delay ≤ 255; rw [g7]; exact hdelay
  | Unknown b =>
    obtain rfl := (Option.some_inj.mp hE).symm
    exact ⟨hpc4350, hstack, hreg, hram, hdelay⟩
  | SkipIfEqualRegVal reg val =>
    obtain rfl := (Option.some_inj.mp hE).symm
    split
    · exact ⟨(by omega : m.program_counter + 2 ≤ 4350), hstack, hreg, hram, hdelay⟩
    · exact ⟨hpc4350, hstack, hreg, hram, hdelay⟩
  | SkipIfNotEqualRegVal reg val =>
    obtain rfl := (Option.some_inj.mp hE).symm
    split
    · exact ⟨(by omega : m.program_counter + 2 ≤ 4350), hstack, hreg, hram, hdelay⟩
    · exact ⟨hpc4350, hstack, hreg, hram, hdelay⟩
  | SkipIfEqualRegReg r1 r2 =>
    obtain rfl := (Option.some_inj.mp hE).symm
    split
    · exact ⟨(by omega : m.program_counter + 2 ≤ 4350), hstack, hreg, hram, hdelay⟩
    · exact ⟨hpc4350, hstack, hreg, hram, hdelay⟩
  | SkipIfNotEqualRegReg r1 r2 =>
    obtain rfl := (Option.some_inj.mp hE).symm
    split
    · exact ⟨(by omega : m.program_counter + 2 ≤ 4350), hstack, hreg, hram, hdelay⟩
    · exact ⟨hpc4350, hstack, hreg, hram, hdelay⟩
  | Set rx ry =>
    obtain rfl := (Option.some_inj.mp hE).symm
    exact ⟨hpc4350, hstack, Machine.setReg_reg_lt m rx _ (hreg ry) hreg, hram, hdelay⟩
  | Or rx ry =>
    obtain rfl := (Option.some_inj.mp hE).symm
    exact ⟨hpc4350, hstack,
      Machine.setReg_reg_lt m rx _ (or_lt_256 _ _ (hreg rx) (hreg ry)) hreg, hram, hdelay⟩
  | And rx ry =>
    obtain rfl := (Option.some_inj.mp hE).symm
    exact ⟨hpc4350, hstack,
      Machine.setReg_reg_lt m rx _ (lt_of_le_of_lt Nat.and_le_left (hreg rx)) hreg,
      hram, hdelay⟩
  | Xor rx ry =>
    obtain rfl := (Option.some_inj.mp hE).symm
    exact ⟨hpc4350, hstack,
      Machine.setReg_reg_lt m rx _ (xor_lt_256 _ _ (hreg rx) (hreg ry)) hreg, hram, hdelay⟩
  | Add rx ry =>
    obtain rfl := (Option.some_inj.mp hE).symm
    split <;>
      exact ⟨hpc4350, hstack,
        Machine.setReg_reg_lt _ rx _ (Nat.mod_lt _ (by norm_num))
          (fun i => by
            rw [Machine.set_flag_register_registers]
            split <;> first | exact hreg i | norm_num),
        hram, hdelay⟩
  | SubtractXY rx ry =>
    obtain rfl := (Option.some_inj.mp hE).symm
    unfold Machine._execute_subtract
    split <;>
      exact ⟨hpc4350, hstack,
        Machine.setReg_reg_lt _ rx _ (Nat.mod_lt _ (by norm_num))
          (fun i => by
            rw [Machine.set_flag_register_registers]
            split <;> first | exact hreg i | norm_num),
        hram, hdelay⟩
  | SubtractYX rx ry =>
    obtain rfl := (Option.some_inj.mp hE).symm
    unfold Machine._execute_subtract
    split <;>
      exact ⟨hpc4350, hstack,
        Machine.setReg_reg_lt _ rx _ (Nat.mod_lt _ (by norm_num))
          (fun i => by
            rw [Machine.set_flag_register_registers]
            split <;> first | exact hreg i | norm_num),
        hram, hdelay⟩
  | ShiftLeft rx ry =>
    obtain rfl := (Option.some_inj.mp hE).symm
    exact ⟨hpc4350, hstack,
      Machine.setReg_reg_lt _ rx _ (Nat.mod_lt _ (by norm_num))
        (fun i => by
          rw [Machine.set_flag_register_registers]
          split <;>
            first
              | exact hreg i
              | exact lt_of_le_of_lt Nat.and_le_right (by norm_num)),
      hram, hdelay⟩
  | ShiftRight rx ry =>
    obtain rfl := (Option.some_inj.mp hE).symm
    exact ⟨hpc4350, hstack,
      Machine.setReg_reg_lt _ rx _ (lt_of_le_of_lt (Nat.div_le_self _ _) (hreg rx))
        (fun i => by
          rw [Machine.set_flag_register_registers]
          split <;>
            first
              | exact hreg i
              | exact lt_of_le_of_lt Nat.and_le_right (by norm_num)),
      hram, hdelay⟩
  | JumpWithOffset offset =>
    have hv : offset < 4096 := hwf
    obtain rfl := (Option.some_inj.mp hE).symm
    exact ⟨(by have h0 := hreg 0; omega : offset + m.registers 0 ≤ 4350),
      hstack, hreg, hram, hdelay⟩
  | Random rx v =>
    obtain rfl := (Option.some_inj.mp hE).symm
    exact ⟨hpc4350, hstack,
      Machine.setReg_reg_lt m rx _
        (lt_of_le_of_lt Nat.and_le_left (Nat.mod_lt _ (by norm_num))) hreg,
      hram, hdelay⟩
  | SkipIfKeyPressed vx =>
    simp only [Machine.execInstr, Machine.readKey] at hE
    split at hE
    · exact absurd hE (by simp)
    · obtain rfl := (Option.some_inj.mp hE).symm
      split
      · exact ⟨(by omega : m.program_counter + 2 ≤ 4350), hstack, hreg, hram, hdelay⟩
      · exact ⟨hpc4350, hstack, hreg, hram, hdelay⟩
  | SkipIfKeyNotPressed vx =>
    simp only [Machine.execInstr, Machine.readKey] at hE
    split at hE
    · exact absurd hE (by simp)
    · obtain rfl := (Option.some_inj.mp hE).symm
      split
      · exact ⟨(by omega : m.program_counter + 2 ≤ 4350), hstack, hreg, hram, hdelay⟩
      · exact ⟨hpc4350, hstack, hreg, hram, hdelay⟩
  | ReadDelayTimer vx =>
    obtain rfl := (Option.some_inj.mp hE).symm
    exact ⟨hpc4350, hstack, Machine.setReg_reg_lt m vx _ (by omega) hreg, hram, hdelay⟩
  | SetDelayTimer vx =>
    obtain rfl := (Option.some_inj.mp hE).symm
    exact ⟨hpc4350, hstack, hreg, hram, (by have := hreg vx; omega : m.registers vx ≤ 255)⟩
  | SetSoundTimer vx =>
    obtain rfl := (Option.some_inj.mp hE).symm
    exact ⟨hpc4350, hstack, hreg, hram, hdelay⟩
  | AddToIndex vx =>
    obtain rfl := (Option.some_inj.mp hE).symm
    split
    · exact ⟨hpc4350, hstack,
        (fun i => by
          rw [Machine.set_flag_register_registers]
          split <;> first | exact hreg i | norm_num),
        hram, hdelay⟩
    · exact ⟨hpc4350, hstack, hreg, hram, hdelay⟩
  | GetKey vx =>
    simp only [Machine.execInstr] at hE
    split at hE
    · rename_i key hfind
      obtain rfl := (Option.some_inj.mp hE).symm
      exact ⟨hpc4350, hstack,
        Machine.setReg_reg_lt m vx key
          (by have := Machine.findKey_lt m key hfind; omega) hreg,
        hram, hdelay⟩
    · obtain rfl := (Option.some_inj.mp hE).symm
      exact ⟨(by omega : m.program_counter - 2 ≤ 4350), hstack, hreg, hram, hdelay⟩
  | FontCharacter vx =>
    obtain rfl := (Option.some_inj.mp hE).symm
    exact ⟨hpc4350, hstack, hreg, hram, hdelay⟩
  | ConvertToDecimal vx =>
    simp only [Machine.execInstr] at hE
    split at hE
    · exact absurd hE (by simp)
    · rename_i m1 hw1
      split at hE
      · exact absurd hE (by simp)
      · rename_i mB hw2
        split at hE
        · exact absurd hE (by simp)
        · rename_i mC hw3
          obtain rfl := (Option.some_inj.mp hE).symm
          obtain ⟨-, g2, -, g4, -, g6, -, g8⟩ := Machine.writeRam_frame _ _ _ _ hw1
          obtain ⟨-, h2, -, h4, -, h6, -, h8⟩ := Machine.writeRam_frame _ _ _ _ hw2
          obtain ⟨-, k2, -, k4, -, k6, -, k8⟩ := Machine.writeRam_frame _ _ _ _ hw3
          have hram1 := Machine.writeRam_ram_lt _ _ _ _ hw1 hram
            (lt_of_le_of_lt (Nat.div_le_self _ _) (hreg vx))
          have hram2 := Machine.writeRam_ram_lt _ _ _ _ hw2 hram1
            (lt_of_lt_of_le (Nat.mod_lt _ (by norm_num)) (by norm_num))
          have hram3 := Machine.writeRam_ram_lt _ _ _ _ hw3 hram2
            (lt_of_lt_of_le (Nat.mod_lt _ (by norm_num)) (by norm_num))
          refine ⟨?_, ?_, ?_, hram3, ?_⟩
          · rw [k4, h4, g4]; exact hpc4350
          · intro i; rw [k2, h2, g2]; exact hstack i
          · intro i; rw [k6, h6, g6]; exact hreg i
          · rw [k8, h8, g8]; exact hdelay
  | RegistersToMemory vx =>
    obtain ⟨-, s2, -, s4, -, s6, -, s8⟩ :=
      Machine.storeRegs_frame vx (vx + 1) 0 rfl m m2 hE
    refine ⟨?_, ?_, ?_,
      Machine.storeRegs_ram_lt vx (vx + 1) 0 rfl m m2 hE hram hreg, ?_⟩
    · rw [s4]; exact hpc4350
    · intro i; rw [s2]; exact hstack i
    · intro i; rw [s6]; exact hreg i
    · rw [s8]; exact hdelay
  | MemoryToRegisters vx =>
    obtain ⟨-, s2, -, s4, -, s6, -, s8⟩ :=
      Machine.loadRegs_frame vx (vx + 1) 0 rfl m m2 hE
    refine ⟨?_, ?_,
      Machine.loadRegs_reg_lt vx (vx + 1) 0 rfl m m2 hE hram hreg, ?_, ?_⟩
    · rw [s4]; exact hpc4350
    · intro i; rw [s2]; exact hstack i
    · intro a; rw [s6]; exact hram a
    · rw [s8]; exact hdelay

theorem Machine.execute_one_fetch (m : Machine) (t : ℚ) (r : Nat) (m2 : Machine)
    (hE : m.execute_one t r = some m2) :
    m.program_counter + 1 < 4096 ∧
    ∃ mE, ({ m with program_counter := m.program_counter + 2 } : Machine).execInstr
        (decode ((m.ram m.program_counter <<< 8) ||| m.ram (m.program_counter + 1))) r
        = some mE ∧
      ¬ t < mE.timers.last_tick ∧
      m2 = { mE with key_pressed := fun _ => false,
                     timers := Timers.tickPure t mE.timers } := by
  by_cases h1 : m.program_counter + 1 < 4096
  · have h0 : m.program_counter < 4096 := by omega
    simp only [Machine.execute_one, Machine.readRam, h0, h1, if_true] at hE
    split at hE
    · exact absurd hE (by simp)
    · rename_i mE hX
      unfold Machine.finishCycle at hE
      split at hE
      · exact absurd hE (by simp)
      · rename_i tm htm
        obtain ⟨ht, htm2⟩ := Timers.tick_eq_some t mE.timers tm htm
        exact ⟨h1, mE, hX, ht, by rw [← Option.some_inj.mp hE, htm2]⟩
  · exfalso
    unfold Machine.execute_one Machine.readRam at hE
    by_cases h0 : m.program_counter < 4096
    · rw [if_pos h0, if_neg h1] at hE
      simp at hE
    · rw [if_neg h0] at hE
      simp at hE

theorem Machine.execute_one_inv (m : Machine) (t : ℚ) (r : Nat) (m2 : Machine)
    (hI : m.Inv) (hE : m.execute_one t r = some m2) : m2.Inv := by
  obtain ⟨hpc, hstack, hreg, hram, hdelay⟩ := hI
  obtain ⟨h1, mE, hX, -, rfl⟩ := Machine.execute_one_fetch m t r m2 hE
  have hwf := decode_wf ((m.ram m.program_counter <<< 8) ||| m.ram (m.program_counter + 1))
  obtain ⟨p1, p2, p3, p4, -⟩ := Machine.execInstr_inv
    { m with program_counter := m.program_counter + 2 } _ r mE hwf
    ((by omega : m.program_counter + 2 ≤ 4096)) (fun i => hstack i) (fun i => hreg i)
    (fun a => hram a) hdelay hX
  exact ⟨p1, p2, p3, p4, clampByte_le _⟩

theorem Machine.reachable_inv (m0 m : Machine) (h0 : m0.Inv) (hr : m0.Reachable m) :
    m.Inv := by
  induction hr with
  | refl => exact h0
  | tail hab hbc ih =>
    obtain ⟨t, r, hE⟩ := hbc
    exact Machine.execute_one_inv _ t r _ ih hE

theorem Machine.load_inv (t0 : ℚ) (data : List Nat) (m0 : Machine)
    (hdata : ∀ v ∈ data, v < 256)
    (hload : (Machine.default t0).load_rom_from_bytes data = some m0) : m0.Inv := by
  by_cases hlen : data.length ≤ 3584
  · obtain ⟨m1, heq, hram1, hdisp, hstq, hsi, hpcq, hir, hregq, hkey, htmq⟩ :=
      loadBytesAux_some data 0 (Machine.default t0) (by omega)
    unfold Machine.load_rom_from_bytes at hload
    rw [heq] at hload
    obtain rfl := (Option.some_inj.mp hload).symm
    refine ⟨(by norm_num : (0x200 : Nat) ≤ 4350), ?_, ?_, ?_, ?_⟩
    · intro i
      show m1.stack i ≤ 4096
      rw [hstq]
      exact Nat.zero_le 4096
    · intro i
      show m1.registers i < 256
      rw [hregq]
      exact (by norm_num : (0 : Nat) < 256)
    · intro a
      show m1.ram a < 256
      rw [hram1 a]
      split
      · exact getD_lt_256 data hdata _
      · exact Machine.default_ram_lt t0 a
    · show m1.timers.delay ≤ 255
      rw [htmq]
      exact Nat.zero_le 255
  · exfalso
    have hne : data ≠ [] := by
      intro hcon
      subst hcon
      simp at hlen
    have hnone := loadBytesAux_none data 0 (Machine.default t0) (by omega) hne
    unfold Machine.load_rom_from_bytes at hload
    rw [hnone] at hload
    simp at hload

/-- C4 counterexample: load the two-byte ROM `1F FF` into a fresh machine
and execute one cycle.  The fetched word 0x1FFF decodes to `Jump 0xFFF`,
so the reachable state after one `execute_one` has program counter 4095,
which is odd and exceeds 4094 — the spec's invariant does not hold. -/
theorem c4_jump_breaks_pc_invariant :
    ∃ m0 m : Machine,
      (Machine.default 0).load_rom_from_bytes [0x1F, 0xFF] = some m0 ∧
      m0.Reachable m ∧ m.program_counter % 2 = 1 ∧ 4094 < m.program_counter := by
  obtain ⟨m1, hl, hram1, hdisp, hstq, hsi, hpcq, hir, hregq, hkey, htmq⟩ :=
    loadBytesAux_some [0x1F, 0xFF] 0 (Machine.default 0) (by norm_num)
  have hload : (Machine.default 0).load_rom_from_bytes [0x1F, 0xFF]
      = some { m1 with program_counter := 0x200 } := by
    simp only [Machine.load_rom_from_bytes, hl]
  have hb0 : m1.ram 0x200 = 0x1F := by
    have h := hram1 0x200
    rw [if_pos (by norm_num)] at h
    simpa using h
  have hb1 : m1.ram 0x201 = 0xFF := by
    have h := hram1 0x201
    rw [if_pos (by norm_num)] at h
    simpa using h
  have hstep : ∃ mF, ({ m1 with program_counter := 0x200 } : Machine).execute_one 0 0
      = some mF ∧ mF.program_counter = 0xFFF := by
    refine ⟨_, Machine.execute_one_run _ 0 0 { m1 with program_counter := 0xFFF }
      ((by norm_num : (0x200 : Nat) + 1 < 4096)) ?_ ?_, rfl⟩
    · show ({ m1 with program_counter := 0x200 + 2 } : Machine).execInstr
        (decode ((m1.ram 0x200 <<< 8) ||| m1.ram (0x200 + 1))) 0 =
        some { m1 with program_counter := 0xFFF }
      rw [show (0x200 : Nat) + 1 = 0x201 from rfl, hb0, hb1,
        show decode (((0x1F : Nat) <<< 8) ||| 0xFF) = Instruction.Jump 0xFFF from by decide]
      rfl
    · show m1.timers.last_tick ≤ (0 : ℚ)
      rw [htmq]
      exact le_refl 0
  obtain ⟨mF, hstep, hpcF⟩ := hstep
  refine ⟨{ m1 with program_counter := 0x200 }, mF, hload,
    Relation.ReflTransGen.single ⟨0, 0, hstep⟩, ?_, ?_⟩
  · rw [hpcF]
  · rw [hpcF]
    norm_num

/-- C4 (amended): the spec claims every reachable program counter is even
and at most 4094, but `Jump`/`JumpWithOffset` can set any 12-bit (plus
register 0) target, including odd ones and 4095 (see the counterexample
`c4_jump_breaks_pc_invariant`).  What does hold for every state reachable
from a fresh machine with a loaded ROM of u8 bytes: the program counter is
at most 4350 (= 4095 + 255, a `JumpWithOffset` worst case), and whenever a
further `execute_one` succeeds the program counter was at most 4094 (the
fetch indexes `ram[pc]` and `ram[pc + 1]`, panicking past 4095). -/
theorem c4_pc_bounded (t0 : ℚ) (data : List Nat) (m0 m : Machine)
    (hdata : ∀ v ∈ data, v < 256)
    (hload : (Machine.default t0).load_rom_from_bytes data = some m0)
    (hr : m0.Reachable m) :
    m.program_counter ≤ 4350 ∧
    ∀ (t : ℚ) (r : Nat) (m2 : Machine), m.execute_one t r = some m2 →
      m.program_counter ≤ 4094 := by
  have hI := Machine.reachable_inv m0 m (Machine.load_inv t0 data m0 hdata hload) hr
  refine ⟨hI.1, ?_⟩
  intro t r m2 hE
  have h1 := (Machine.execute_one_fetch m t r m2 hE).1
  omega

theorem c4_pc_bounded_witness :
    (∀ v ∈ ([] : List Nat), v < 256) ∧
    (Machine.default 0).load_rom_from_bytes ([] : List Nat) =
      some { Machine.default 0 with program_counter := 0x200 } ∧
    Machine.Reachable { Machine.default 0 with program_counter := 0x200 }
      { Machine.default 0 with program_counter := 0x200 } ∧
    ({ Machine.default 0 with program_counter := 0x200 } : Machine).program_counter ≤ 4350 ∧
    ∀ (t : ℚ) (r : Nat) (m2 : Machine),
      ({ Machine.default 0 with program_counter := 0x200 } : Machine).execute_one t r
        = some m2 →
      ({ Machine.default 0 with program_counter := 0x200 } : Machine).program_counter
        ≤ 4094 :=
  ⟨by simp, rfl, Relation.ReflTransGen.refl,
    (c4_pc_bounded 0 [] { Machine.default 0 with program_counter := 0x200 }
      { Machine.default 0 with program_counter := 0x200 } (by simp) rfl
      Relation.ReflTransGen.refl).1,
    (c4_pc_bounded 0 [] { Machine.default 0 with program_counter := 0x200 }
      { Machine.default 0 with program_counter := 0x200 } (by simp) rfl
      Relation.ReflTransGen.refl).2⟩
